import Mathlib

/-!
Verification of the price-tracker crawl/extract/diff/insight pipeline.

This file shallowly embeds the TypeScript sources (`libs/crawler/normalize`,
`libs/crawler/diff`, `libs/crawler/extract`, `libs/crawler/discovery` (runner),
`libs/entitlements`, `libs/crawler/insight`, `libs/cron-auth`, and the
crawl-now / retry-crawl route handlers) as executable Lean definitions and
proves properties of them.

Modelling conventions:
* JavaScript strings are modelled as lists of code points (`JSStr := List Nat`);
  `String.prototype.toLowerCase`/`toUpperCase` are modelled on the ASCII range
  (the only range exercised by the pipeline's token sets), `\s` as the ASCII
  whitespace class, and `localeCompare` as code-point comparison (these agree
  on the ASCII token vocabulary the pipeline manipulates).
* JavaScript numbers are modelled as rationals (`ℚ`); `toFixed(2)` rounding is
  round-half-up at two decimals, matching the specified tie-break
  ("pick the larger n").
* `Map`/`Set` iteration order is insertion order, as in JS; `Array.sort` is a
  stable merge sort on the comparator's `≤ 0` relation.
* Asynchronous I/O (fetch, Mongo reads/writes) is modelled by passing outcomes
  in explicitly and by returning the records that the code would write.
-/

/-- A JavaScript string, modelled as its list of code points. -/
abbrev JSStr := List Nat

/-- Embed a Lean string literal as a `JSStr`. -/
def jstr (s : String) : JSStr := s.data.map Char.toNat

/-- ASCII whitespace class used by the JS `\s`-based normalizers. -/
def isJsSpaceCp (n : Nat) : Bool :=
  n == 32 || n == 9 || n == 10 || n == 11 || n == 12 || n == 13

/-- Code-point lowercasing (ASCII range), modelling `toLowerCase`. -/
def lowerCp (n : Nat) : Nat := if 65 ≤ n ∧ n ≤ 90 then n + 32 else n

/-- Code-point uppercasing (ASCII range), modelling `toUpperCase`. -/
def upperCp (n : Nat) : Nat := if 97 ≤ n ∧ n ≤ 122 then n - 32 else n

/-- Model of `String.prototype.toLowerCase`. -/
def toLowerJ (s : JSStr) : JSStr := s.map lowerCp

/-- Model of `String.prototype.toUpperCase`. -/
def toUpperJ (s : JSStr) : JSStr := s.map upperCp

/-- Model of `String.prototype.trim`. -/
def trimJ (s : JSStr) : JSStr :=
  ((s.dropWhile isJsSpaceCp).reverse.dropWhile isJsSpaceCp).reverse

/-- The maximal whitespace-free words of a string, in order.  This is the
word decomposition underlying `value.replace(/\s+/g, " ").trim()`. -/
def wordsJ : JSStr → List JSStr
  | [] => []
  | c :: cs =>
    if isJsSpaceCp c then wordsJ cs
    else (c :: cs.takeWhile (fun d => !isJsSpaceCp d)) ::
      wordsJ (cs.dropWhile (fun d => !isJsSpaceCp d))
termination_by s => s.length
decreasing_by
  · simp
  · have h : (cs.dropWhile (fun d => !isJsSpaceCp d)).length ≤ cs.length :=
      (List.dropWhile_sublist _).length_le
    simp
    omega

/-- Join words with single spaces. -/
def joinWordsJ : List JSStr → JSStr
  | [] => []
  | [w] => w
  | w :: ws => w ++ 32 :: joinWordsJ ws

/-- Model of `normalizeWhitespace` from `normalize.ts`:
`value.replace(/\s+/g, " ").trim()`. -/
def normalizeWhitespace (s : JSStr) : JSStr := joinWordsJ (wordsJ s)

/-- Code-point comparison of strings; models `localeCompare` on the ASCII
token vocabulary of the pipeline. -/
def lexOrdJ : JSStr → JSStr → Ordering
  | [], [] => .eq
  | [], _ :: _ => .lt
  | _ :: _, [] => .gt
  | a :: as, b :: bs =>
    if a < b then .lt else if b < a then .gt else lexOrdJ as bs

/-- The `comparator ≤ 0` relation used by `Array.prototype.sort` with a
`localeCompare` comparator. -/
def lexLeJ (a b : JSStr) : Bool := lexOrdJ a b ≠ .gt

/-- Keep-first deduplication by a key, with an accumulator of already-seen
keys.  With `seen = []` this models both `new Set(list)` (key = identity) and
the keyed `Map` insertion loops (`if (!m.has(key)) m.set(key, v)`). -/
def dedupByKey {α κ : Type} [DecidableEq κ] (key : α → κ) :
    List κ → List α → List α
  | _, [] => []
  | seen, x :: xs =>
    if key x ∈ seen then dedupByKey key seen xs
    else x :: dedupByKey key (key x :: seen) xs

/-- Substring test (models `String.prototype.includes`). -/
def hasSubJ (needle : JSStr) : JSStr → Bool
  | [] => needle.isEmpty
  | c :: cs => needle.isPrefixOf (c :: cs) || hasSubJ needle cs

/-- Round-half-up at two decimals; models `Number(x.toFixed(2))` on exact
rationals (the tie "pick the larger n" rounds up). -/
def round2 (q : ℚ) : ℚ := (⌊q * 100 + 1/2⌋ : ℚ) / 100

/-- The integer number of cents after `toFixed(2)` rounding. -/
def cents2 (q : ℚ) : ℤ := ⌊q * 100 + 1/2⌋

/-- Decimal digit string of a natural number, most significant digit first. -/
def natDigitsJ (n : Nat) : JSStr :=
  if h : n < 10 then [48 + n] else natDigitsJ (n / 10) ++ [48 + n % 10]
termination_by n
decreasing_by omega

/-- Render an integer number of cents the way `x.toFixed(2)` renders the
corresponding number (sign, integer part, dot, two fraction digits). -/
def fixed2Str (k : ℤ) : JSStr :=
  (if k < 0 then [45] else []) ++ natDigitsJ (k.natAbs / 100) ++
    (46 :: [48 + (k.natAbs % 100) / 10, 48 + k.natAbs % 100 % 10])

/-! Canonicalizer data model (`normalize.ts`). -/

/-- Price period union from `normalize.ts`. -/
inductive PricePeriod
  | day | week | month | year | one_time | unknown
deriving DecidableEq, Repr

/-- The literal string of a `PricePeriod` (the TS value itself). -/
def periodKeyJ : PricePeriod → JSStr
  | .day => jstr "day"
  | .week => jstr "week"
  | .month => jstr "month"
  | .year => jstr "year"
  | .one_time => jstr "one_time"
  | .unknown => jstr "unknown"

/-- One extracted price mention (`NormalizedPricePoint`). -/
structure NormalizedPricePoint where
  amount : ℚ
  currency : JSStr
  period : PricePeriod
deriving DecidableEq, Repr

/-- The canonical pricing payload (`NormalizedPricingPayload`). -/
structure NormalizedPricingPayload where
  sourceUrl : JSStr
  pageTitle : Option JSStr
  pageDescription : Option JSStr
  planNames : List JSStr
  priceMentions : List NormalizedPricePoint
  customPricingHints : List JSStr
deriving DecidableEq, Repr

/-- Model of `uniqueStrings` from `normalize.ts`: normalize + lowercase each
item, de-duplicate (`Set` keeps the first occurrence), drop empties, sort. -/
def uniqueStrings (items : List JSStr) : List JSStr :=
  ((dedupByKey id []
      (items.map (fun item => toLowerJ (normalizeWhitespace item)))).filter
    (fun item => !item.isEmpty)).mergeSort lexLeJ

/-- The `Map` key used by `uniquePrices`:
`` `${price.currency}|${price.period}|${roundedAmount.toFixed(2)}` ``.
Note the currency enters the key in its original case. -/
def priceKeyJ (p : NormalizedPricePoint) : JSStr :=
  p.currency ++ 124 :: periodKeyJ p.period ++ 124 :: fixed2Str (cents2 p.amount)

/-- The value stored by `uniquePrices` for a mention: rounded amount,
uppercased currency, unchanged period. -/
def storedPrice (p : NormalizedPricePoint) : NormalizedPricePoint :=
  { amount := round2 p.amount, currency := toUpperJ p.currency, period := p.period }

/-- The `comparator ≤ 0` relation of the `uniquePrices` sort:
currency `localeCompare`, then period `localeCompare`, then `a.amount - b.amount`. -/
def pricePointLe (a b : NormalizedPricePoint) : Bool :=
  if a.currency ≠ b.currency then lexLeJ a.currency b.currency
  else if a.period ≠ b.period then lexLeJ (periodKeyJ a.period) (periodKeyJ b.period)
  else decide (a.amount ≤ b.amount)

/-- Model of `uniquePrices` from `normalize.ts`: keep the first mention per
`(currency-as-written, period, rounded amount)` key, store the rounded and
uppercased form, then sort. -/
def uniquePrices (prices : List NormalizedPricePoint) : List NormalizedPricePoint :=
  ((dedupByKey priceKeyJ [] prices).map storedPrice).mergeSort pricePointLe

/-- Model of `canonicalizePricingPayload` from `normalize.ts`.  An empty
`pageTitle`/`pageDescription` string is falsy in JS, hence mapped to `null`. -/
def canonicalizePricingPayload (payload : NormalizedPricingPayload) :
    NormalizedPricingPayload :=
  { sourceUrl := payload.sourceUrl
    pageTitle := match payload.pageTitle with
      | none => none
      | some t => if t.isEmpty then none else some (normalizeWhitespace t)
    pageDescription := match payload.pageDescription with
      | none => none
      | some t => if t.isEmpty then none else some (normalizeWhitespace t)
    planNames := uniqueStrings payload.planNames
    priceMentions := uniquePrices payload.priceMentions
    customPricingHints := uniqueStrings payload.customPricingHints }

/-! URL normalization (`normalize.ts`).  `new URL(...)` is a platform builtin;
it is modelled by a parser for the WHATWG grammar restricted to the
no-userinfo, no-port, ASCII subset (inputs outside this subset parse to
`none`, i.e. the model treats them as the code's `catch → null` branch). -/

/-- Alphabetic ASCII code point. -/
def isAlphaCp (n : Nat) : Bool := (65 ≤ n && n ≤ 90) || (97 ≤ n && n ≤ 122)

/-- Decimal digit code point. -/
def isDigitCp (n : Nat) : Bool := 48 ≤ n && n ≤ 57

/-- Code points accepted in a scheme after the first character. -/
def isSchemeCp (n : Nat) : Bool := isAlphaCp n || isDigitCp n || n == 43 || n == 45 || n == 46

/-- A valid scheme: one alphabetic character followed by scheme characters. -/
def validSchemeJ : JSStr → Bool
  | [] => false
  | c :: cs => isAlphaCp c && cs.all isSchemeCp

/-- Code points accepted in a host (before lowercasing): letters, digits,
`-`, `.`; this excludes the authority delimiters `: / ? # @`. -/
def isHostRawCp (n : Nat) : Bool := isAlphaCp n || isDigitCp n || n == 45 || n == 46

/-- Code points accepted verbatim in a path (a subset on which the WHATWG
parser performs no percent-encoding): letters, digits and
`/ - . _ ~ % : @ + , ; = ( )`. -/
def isPathCp (n : Nat) : Bool :=
  isAlphaCp n || isDigitCp n || n == 47 || n == 45 || n == 46 || n == 95 ||
    n == 126 || n == 37 || n == 58 || n == 64 || n == 43 || n == 44 ||
    n == 59 || n == 61 || n == 40 || n == 41

/-- Parsed URL record: scheme, host, path, query, fragment. -/
structure UrlModel where
  scheme : JSStr
  host : JSStr
  path : JSStr
  query : JSStr
  frag : JSStr
deriving DecidableEq, Repr

/-- Model of `new URL(string)` on the restricted subset: scheme up to `:`,
`//`, authority up to `/ ? #` (must be a plain host), path up to `? #`,
then query and fragment.  The scheme and host are lowercased; an empty path
becomes `/` (special-scheme normalization). -/
def parseUrl (s : JSStr) : Option UrlModel :=
  let schemePart := s.takeWhile (fun c => !(c == 58))
  let rest := s.drop schemePart.length
  if !validSchemeJ schemePart then none
  else if rest.take 3 ≠ [58, 47, 47] then none
  else
    let rest1 := rest.drop 3
    let auth := rest1.takeWhile (fun c => !(c == 47 || c == 63 || c == 35))
    let rest2 := rest1.drop auth.length
    if auth.isEmpty then none
    else if !auth.all isHostRawCp then none
    else
      let path0 := rest2.takeWhile (fun c => !(c == 63 || c == 35))
      let rest3 := rest2.drop path0.length
      if !path0.all isPathCp then none
      else
        some
          { scheme := toLowerJ schemePart
            host := toLowerJ auth
            path := if path0.isEmpty then [47] else path0
            query :=
              if rest3.head? = some 63 then (rest3.drop 1).takeWhile (fun c => !(c == 35))
              else []
            frag := (rest3.dropWhile (fun c => !(c == 35))).drop 1 }

/-- Serialization of a URL record (`url.toString()`); an empty query or
fragment contributes no `?` / `#`. -/
def urlToStringJ (u : UrlModel) : JSStr :=
  u.scheme ++ [58, 47, 47] ++ u.host ++ u.path ++
    (if u.query.isEmpty then [] else 63 :: u.query) ++
    (if u.frag.isEmpty then [] else 35 :: u.frag)

/-- Strip a single leading `www.`; models `replace(/^www\./, "")` (the regex
is not global, so only the first match is removed). -/
def stripWwwOnce (h : JSStr) : JSStr :=
  if [119, 119, 119, 46].isPrefixOf h then h.drop 4 else h

/-- Model of `normalizeHostname`: lowercase, strip one leading `www.`. -/
def normalizeHostname (h : JSStr) : JSStr := stripWwwOnce (toLowerJ h)

/-- Model of the WHATWG `hostname` setter on a special-scheme URL: setting an
empty host is ignored. -/
def setHostname (u : UrlModel) (h : JSStr) : UrlModel :=
  if h.isEmpty then u else { u with host := h }

/-- Collapse every run of slashes to a single slash; models
`replace(/\/{2,}/g, "/")`. -/
def collapseSlashes : JSStr → JSStr
  | [] => []
  | c :: cs =>
    if c == 47 then 47 :: collapseSlashes (cs.dropWhile (fun d => d == 47))
    else c :: collapseSlashes cs
termination_by s => s.length
decreasing_by
  · have h : (cs.dropWhile (fun d => d == 47)).length ≤ cs.length :=
      (List.dropWhile_sublist _).length_le
    simp
    omega
  · simp

/-- Model of `normalizeUrlPath`. -/
def normalizeUrlPath (p : JSStr) : JSStr :=
  let normalized := collapseSlashes p
  if normalized.isEmpty then [47] else normalized

/-- Model of `normalizeUrl` from `normalize.ts`. -/
def normalizeUrl (value : JSStr) : Option JSStr :=
  let prepared := if hasSubJ (jstr "://") value then value else jstr "https://" ++ value
  match parseUrl prepared with
  | none => none
  | some url =>
    if url.scheme ≠ jstr "http" ∧ url.scheme ≠ jstr "https" then none
    else
      let url1 := setHostname url (normalizeHostname url.host)
      let url2 := { url1 with query := [], frag := [] }
      let url3 := { url2 with path := normalizeUrlPath url2.path }
      some (urlToStringJ url3)

/-! Diff engine (`diff.ts`). -/

/-- Diff severity union from `models/Diff`. -/
inductive DiffSeverity
  | low | medium | high
deriving DecidableEq, Repr

/-- Diff verification state union from `models/Diff`. -/
inductive DiffVerificationState
  | verified | unverified
deriving DecidableEq, Repr

/-- One positional pair recorded as updated. -/
structure UpdatedAmount where
  previousAmount : ℚ
  currentAmount : ℚ
  deltaPercent : ℚ
deriving DecidableEq, Repr

/-- One `(currency, period)` bucket of changes (`PriceBucketChange`). -/
structure PriceBucketChange where
  currency : JSStr
  period : PricePeriod
  addedAmounts : List ℚ
  removedAmounts : List ℚ
  updatedAmounts : List UpdatedAmount
deriving DecidableEq, Repr

/-- `PERIOD_ORDER` from `diff.ts`. -/
def PERIOD_ORDER : PricePeriod → Nat
  | .day => 1
  | .week => 2
  | .month => 3
  | .year => 4
  | .one_time => 5
  | .unknown => 6

/-- Bucket key of a price mention:
`` `${price.currency.toUpperCase()}|${price.period}` ``. -/
def bucketKeyJ (p : NormalizedPricePoint) : JSStr :=
  toUpperJ p.currency ++ 124 :: periodKeyJ p.period

/-- Insert-or-update on an insertion-ordered association list (models
`Map.prototype.set`). -/
def mapSetJ {κ ν : Type} [DecidableEq κ] (k : κ) (v : ν) :
    List (κ × ν) → List (κ × ν)
  | [] => [(k, v)]
  | (k', v') :: rest =>
    if k' = k then (k, v) :: rest else (k', v') :: mapSetJ k v rest

/-- Lookup on an association list (models `Map.prototype.get`). -/
def mapGetJ {κ ν : Type} [DecidableEq κ] (k : κ) (m : List (κ × ν)) : Option ν :=
  (m.find? (fun e => e.1 = k)).map (fun e => e.2)

/-- Model of `toBucketMap` from `diff.ts`: fold the mentions into a
`(currency, period)`-keyed map, pushing each rounded amount and re-sorting
the bucket ascending after every push. -/
def toBucketMap (payload : NormalizedPricingPayload) : List (JSStr × List ℚ) :=
  payload.priceMentions.foldl
    (fun buckets price =>
      let key := bucketKeyJ price
      let next := ((mapGetJ key buckets).getD []) ++ [round2 price.amount]
      mapSetJ key (next.mergeSort (fun a b => decide (a ≤ b))) buckets)
    []

/-- The percent delta of a positional pair, as computed in
`createBucketChange`: `previous > 0 ? abs/previous*100 : 100`. -/
def deltaPercentOf (previousAmount currentAmount : ℚ) : ℚ :=
  if 0 < previousAmount then |currentAmount - previousAmount| / previousAmount * 100
  else 100

/-- The updated pairs of a bucket: for each index where both sides have an
amount, record the pair iff `absoluteDelta ≥ 0.5` and `deltaPercent ≥ 1`,
with the recorded percentage rounded to two decimals. -/
def updatedAmountsOf (previousAmounts currentAmounts : List ℚ) : List UpdatedAmount :=
  (List.range (max previousAmounts.length currentAmounts.length)).filterMap
    (fun index =>
      match previousAmounts[index]?, currentAmounts[index]? with
      | some previousAmount, some currentAmount =>
        if |currentAmount - previousAmount| ≥ 1/2 ∧
            deltaPercentOf previousAmount currentAmount ≥ 1 then
          some
            { previousAmount := previousAmount
              currentAmount := currentAmount
              deltaPercent := round2 (deltaPercentOf previousAmount currentAmount) }
        else none
      | _, _ => none)

/-- The removed amounts of a bucket: indices where only the previous side has
an amount. -/
def removedAmountsOf (previousAmounts currentAmounts : List ℚ) : List ℚ :=
  (List.range (max previousAmounts.length currentAmounts.length)).filterMap
    (fun index =>
      match previousAmounts[index]?, currentAmounts[index]? with
      | some previousAmount, none => some previousAmount
      | _, _ => none)

/-- The added amounts of a bucket: indices where only the current side has an
amount. -/
def addedAmountsOf (previousAmounts currentAmounts : List ℚ) : List ℚ :=
  (List.range (max previousAmounts.length currentAmounts.length)).filterMap
    (fun index =>
      match previousAmounts[index]?, currentAmounts[index]? with
      | none, some currentAmount => some currentAmount
      | _, _ => none)

/-- Parse one of the six period literals; the TS code casts the key segment
with `as PricePeriod` without validation, and every key built by
`toBucketMap` carries a valid literal. -/
def periodOfKeyJ (s : JSStr) : PricePeriod :=
  if s = jstr "day" then .day
  else if s = jstr "week" then .week
  else if s = jstr "month" then .month
  else if s = jstr "year" then .year
  else if s = jstr "one_time" then .one_time
  else .unknown

/-- Split a string at every occurrence of a separator code point (models
`String.prototype.split`). -/
def splitSepJ (sep : Nat) : JSStr → List JSStr
  | [] => [[]]
  | c :: cs =>
    if c == sep then [] :: splitSepJ sep cs
    else match splitSepJ sep cs with
      | [] => [[c]]
      | w :: ws => (c :: w) :: ws

/-- Model of `createBucketChange` from `diff.ts`. -/
def createBucketChange (key : JSStr) (previousAmounts currentAmounts : List ℚ) :
    Option PriceBucketChange :=
  let parts := splitSepJ 124 key
  let currency := parts.getD 0 []
  let period := periodOfKeyJ (parts.getD 1 [])
  let addedAmounts := addedAmountsOf previousAmounts currentAmounts
  let removedAmounts := removedAmountsOf previousAmounts currentAmounts
  let updatedAmounts := updatedAmountsOf previousAmounts currentAmounts
  if addedAmounts.isEmpty ∧ removedAmounts.isEmpty ∧ updatedAmounts.isEmpty then none
  else
    some
      { currency := currency
        period := period
        addedAmounts := addedAmounts
        removedAmounts := removedAmounts
        updatedAmounts := updatedAmounts }

/-- `totalUpdates` reduction from `determineSeverity`. -/
def totalUpdates (changes : List PriceBucketChange) : Nat :=
  changes.foldl (fun sum change => sum + change.updatedAmounts.length) 0

/-- `totalAdded` reduction from `determineSeverity`. -/
def totalAdded (changes : List PriceBucketChange) : Nat :=
  changes.foldl (fun sum change => sum + change.addedAmounts.length) 0

/-- `totalRemoved` reduction from `determineSeverity`. -/
def totalRemoved (changes : List PriceBucketChange) : Nat :=
  changes.foldl (fun sum change => sum + change.removedAmounts.length) 0

/-- `maxDeltaPercent` reduction from `determineSeverity` (nested folds with
floor `0`). -/
def maxDeltaPercent (changes : List PriceBucketChange) : ℚ :=
  changes.foldl
    (fun maxDelta change =>
      max maxDelta
        (change.updatedAmounts.foldl (fun innerMax update => max innerMax update.deltaPercent) 0))
    0

/-- Model of `determineSeverity` from `diff.ts`. -/
def determineSeverity (changes : List PriceBucketChange) (customHintChanged : Bool) :
    DiffSeverity :=
  if maxDeltaPercent changes ≥ 20 ∨ (totalAdded changes ≥ 2 ∧ totalRemoved changes ≥ 2) then
    .high
  else if maxDeltaPercent changes ≥ 10 ∨
      totalUpdates changes + totalAdded changes + totalRemoved changes ≥ 2 ∨
      customHintChanged then
    .medium
  else .low

/-- The `comparator ≤ 0` relation of `sortBucketChanges`: currency
`localeCompare`, then `PERIOD_ORDER` difference. -/
def bucketChangeLe (a b : PriceBucketChange) : Bool :=
  if a.currency ≠ b.currency then lexLeJ a.currency b.currency
  else if a.period ≠ b.period then decide (PERIOD_ORDER a.period ≤ PERIOD_ORDER b.period)
  else true

/-- Model of `sortBucketChanges` from `diff.ts`. -/
def sortBucketChanges (changes : List PriceBucketChange) : List PriceBucketChange :=
  changes.mergeSort bucketChangeLe

/-- The structured `normalizedDiff` record attached to a diff (the JSON
bookkeeping object, minus the wall-clock `changedAt` stamp). -/
structure NormalizedDiff where
  priceChanges : List PriceBucketChange
  addedHints : List JSStr
  removedHints : List JSStr
  previousPriceCount : Nat
  currentPriceCount : Nat
  previousPlanCount : Nat
  currentPlanCount : Nat
deriving DecidableEq, Repr

/-- Result record of `generatePricingDiff` (`PricingDiffResult`). -/
structure PricingDiffResult where
  normalizedDiff : NormalizedDiff
  severity : DiffSeverity
  verificationState : DiffVerificationState
deriving DecidableEq, Repr

/-- Model of `generatePricingDiff` from `diff.ts`. -/
def generatePricingDiff (previousPayload currentPayload : NormalizedPricingPayload)
    (currentSnapshotVerified : Bool) : Option PricingDiffResult :=
  let previousBuckets := toBucketMap previousPayload
  let currentBuckets := toBucketMap currentPayload
  let allKeys :=
    dedupByKey id [] (previousBuckets.map (fun e => e.1) ++ currentBuckets.map (fun e => e.1))
  let bucketChanges :=
    allKeys.filterMap
      (fun key =>
        createBucketChange key ((mapGetJ key previousBuckets).getD [])
          ((mapGetJ key currentBuckets).getD []))
  let previousHints := dedupByKey id [] previousPayload.customPricingHints
  let currentHints := dedupByKey id [] currentPayload.customPricingHints
  let addedHints := currentHints.filter (fun hint => !(hint ∈ previousHints))
  let removedHints := previousHints.filter (fun hint => !(hint ∈ currentHints))
  let customHintChanged := !addedHints.isEmpty || !removedHints.isEmpty
  if bucketChanges.isEmpty ∧ customHintChanged = false then none
  else
    some
      { normalizedDiff :=
          { priceChanges := sortBucketChanges bucketChanges
            addedHints := addedHints
            removedHints := removedHints
            previousPriceCount := previousPayload.priceMentions.length
            currentPriceCount := currentPayload.priceMentions.length
            previousPlanCount := previousPayload.planNames.length
            currentPlanCount := currentPayload.planNames.length }
        severity := determineSeverity (sortBucketChanges bucketChanges) customHintChanged
        verificationState := if currentSnapshotVerified then .verified else .unverified }

/-! Extractor (`extract.ts`): fetch-failure classification and the per-match
semantics of the price-mention scan. -/

/-- Company crawl status union from `models/Company`. -/
inductive CompanyCrawlStatus
  | idle | ok | blocked | manual_needed | error
deriving DecidableEq, Repr

/-- Failed static fetch (`StaticFetchFailure`). -/
structure StaticFetchFailure where
  status : Nat
  error : JSStr
deriving DecidableEq, Repr

/-- Result of `fetchStaticHtml` (`StaticFetchResult`). -/
inductive StaticFetchResult
  | success (status : Nat) (html : JSStr) (contentType : Option JSStr)
  | failure (f : StaticFetchFailure)
deriving DecidableEq, Repr

/-- The observable outcome of the underlying `fetch` call, passed in as an
oracle: a timed-out request (`AbortError`), a non-2xx response, another
thrown transport error, or a body. -/
inductive FetchOutcome
  | timeout
  | httpError (status : Nat)
  | transportError (message : JSStr)
  | body (status : Nat) (html : JSStr) (contentType : Option JSStr)
deriving DecidableEq, Repr

/-- `BLOCKED_HTTP_STATUSES` from `constants.ts`. -/
def BLOCKED_HTTP_STATUSES : List Nat := [401, 403, 429]

/-- `MAX_HTML_LENGTH` default from `constants.ts`. -/
def MAX_HTML_LENGTH : Nat := 1000000

/-- Model of `fetchStaticHtml` from `extract.ts` as a function of the fetch
outcome: an abort produces `{status: 408, error: "Request timed out"}`, a
non-ok response `HTTP <status>`, another throw `{status: 500}`, and a body is
truncated to `MAX_HTML_LENGTH`. -/
def fetchStaticHtml : FetchOutcome → StaticFetchResult
  | .timeout => .failure { status := 408, error := jstr "Request timed out" }
  | .httpError status =>
      .failure { status := status, error := jstr "HTTP " ++ natDigitsJ status }
  | .transportError message => .failure { status := 500, error := message }
  | .body status html contentType => .success status (html.take MAX_HTML_LENGTH) contentType

/-- Extraction failure record (`CrawlExtractionFailure`, `captureMethod` is
always `static` here). -/
structure CrawlExtractionFailure where
  status : CompanyCrawlStatus
  error : JSStr
  confidence : ℚ
  isVerified : Bool
deriving DecidableEq, Repr

/-- Model of `classifyFetchFailure` from `extract.ts`. -/
def classifyFetchFailure (result : StaticFetchFailure) : CrawlExtractionFailure :=
  if result.status ∈ BLOCKED_HTTP_STATUSES then
    { status := .blocked, error := result.error, confidence := 0, isVerified := false }
  else if 400 ≤ result.status ∧ result.status < 500 then
    { status := .manual_needed, error := result.error, confidence := 0, isVerified := false }
  else
    { status := .error, error := result.error, confidence := 0, isVerified := false }

/-- Model of `mapCurrency` from `extract.ts`. -/
def mapCurrency (token : JSStr) : JSStr :=
  let normalized := toUpperJ (trimJ token)
  if normalized = jstr "$" then jstr "USD"
  else if normalized = jstr "€" then jstr "EUR"
  else if normalized = jstr "£" then jstr "GBP"
  else if normalized = jstr "¥" then jstr "JPY"
  else normalized

/-- Model of `mapPeriod` from `extract.ts`. -/
def mapPeriod (token : Option JSStr) : PricePeriod :=
  match token with
  | none => .unknown
  | some t =>
    let normalized := toLowerJ t
    if normalized ∈ [jstr "day", jstr "daily", jstr "d"] then .day
    else if normalized ∈ [jstr "week", jstr "weekly", jstr "wk", jstr "w"] then .week
    else if normalized ∈ [jstr "month", jstr "monthly", jstr "mo", jstr "m"] then .month
    else if normalized ∈
        [jstr "year", jstr "yearly", jstr "annual", jstr "annually", jstr "yr", jstr "y"] then
      .year
    else if normalized ∈ [jstr "once", jstr "one-time", jstr "onetime"] then .one_time
    else .unknown

/-- Numeric value of a digit string (most significant first). -/
def natOfDigitsJ (ds : JSStr) : Nat :=
  ds.foldl (fun acc d => acc * 10 + (d - 48)) 0

/-- Model of `Number.parseFloat` on the comma-free amount strings produced by
the price regex: integer digits, optionally a dot and fraction digits. -/
def jsParseFloatNum (s : JSStr) : ℚ :=
  let intDigits := s.takeWhile isDigitCp
  let rest := s.drop intDigits.length
  let fracDigits := (rest.drop 1).takeWhile isDigitCp
  (natOfDigitsJ intDigits : ℚ) + (natOfDigitsJ fracDigits : ℚ) / (10 ^ fracDigits.length : ℕ)

/-- One match of the price regex, as its four capture groups: optional ISO
code, optional currency symbol, the amount token, optional period token. -/
structure PriceRegexMatch where
  codeToken : Option JSStr
  symbolToken : Option JSStr
  amountToken : JSStr
  periodToken : Option JSStr
deriving DecidableEq, Repr

/-- The loop body of `extractPriceMentions`: parse the de-comma'd amount,
keep it when positive, defaulting the currency through `mapCurrency("$")`
and the period through `mapPeriod(undefined)`. -/
def priceMentionOfMatch (m : PriceRegexMatch) : Option NormalizedPricePoint :=
  let amount := jsParseFloatNum (m.amountToken.filter (fun c => !(c == 44)))
  if 0 < amount then
    some
      { amount := amount
        currency := match m.codeToken with
          | some code => toUpperJ code
          | none => mapCurrency (m.symbolToken.getD (jstr "$"))
        period := mapPeriod m.periodToken }
  else none

/-- A bare numeric token as recognized by the amount group of the price
regex: one to four leading digits, zero or more comma-separated groups of
three digits, and at most two decimals. -/
structure AmountToken where
  lead : JSStr
  groups : List JSStr
  frac : Option JSStr
deriving DecidableEq, Repr

/-- Well-formedness of an `AmountToken` per the regex
`\d{1,4}(?:,\d{3})*(?:\.\d{1,2})?`. -/
def AmountToken.wf (t : AmountToken) : Bool :=
  (1 ≤ t.lead.length && t.lead.length ≤ 4) && t.lead.all isDigitCp &&
    t.groups.all (fun g => g.length == 3 && g.all isDigitCp) &&
    (match t.frac with
      | none => true
      | some f => (1 ≤ f.length && f.length ≤ 2) && f.all isDigitCp)

/-- The text of an `AmountToken`. -/
def AmountToken.render (t : AmountToken) : JSStr :=
  t.lead ++ t.groups.foldr (fun g acc => 44 :: g ++ acc) [] ++
    (match t.frac with
      | none => []
      | some f => 46 :: f)

/-- The numeric value denoted by an `AmountToken`. -/
def AmountToken.value (t : AmountToken) : ℚ :=
  (natOfDigitsJ (t.lead ++ t.groups.foldr (fun g acc => g ++ acc) []) : ℚ) +
    (match t.frac with
      | none => 0
      | some f => (natOfDigitsJ f : ℚ) / (10 ^ f.length : ℕ))

/-! Entitlements resolver (`libs/entitlements`).  The `config` module is not
part of the crawl core's sources; the resolver is therefore parameterized
over an `EntitlementsConfig` and the configured paid-plan price map, exactly
as the resolver reads them. -/

/-- Trial status union. -/
inductive TrialStatus
  | not_started | active | expired | converted
deriving DecidableEq, Repr

/-- Plan tiers. -/
inductive PlanTier
  | starter | pro
deriving DecidableEq, Repr

/-- Insight severity gates. -/
inductive InsightSeverityGate
  | high_only | high_and_medium
deriving DecidableEq, Repr

/-- Access sources. -/
inductive AccessSource
  | noAccess | trial | paid
deriving DecidableEq, Repr

/-- Access states. -/
inductive AccessState
  | inactive | trial_active | paid_active
deriving DecidableEq, Repr

/-- Per-tier entitlement rule (`PlanEntitlementRule`). -/
structure PlanEntitlementRule where
  competitorLimit : Nat
  insightSeverityGate : InsightSeverityGate
  canReceiveWeeklyDigest : Bool
deriving DecidableEq, Repr

/-- The entitlements section of `config` (`EntitlementsConfig`). -/
structure EntitlementsConfig where
  trialDays : Nat
  trialPlanTier : PlanTier
  paidFallbackPlanTier : PlanTier
  plans : PlanTier → PlanEntitlementRule
  severityGates : InsightSeverityGate → List DiffSeverity

/-- User fields read by the resolver (`EntitlementUserLike`). -/
structure EntitlementUserLike where
  hasAccess : Bool
  priceId : Option String
  trialStatus : TrialStatus
  trialStartedAt : Option Int
  trialEndsAt : Option Int
deriving DecidableEq, Repr

/-- Resolved entitlements (`ResolvedEntitlements`). -/
structure ResolvedEntitlements where
  hasAccess : Bool
  accessSource : AccessSource
  accessState : AccessState
  planTier : Option PlanTier
  competitorLimit : Nat
  insightSeverityGate : Option InsightSeverityGate
  allowedInsightSeverities : List DiffSeverity
  canReceiveWeeklyDigest : Bool
  trialDays : Nat
deriving DecidableEq, Repr

/-- Model of `resolvePlanTierFromPriceId`: an absent or empty price id is
falsy and resolves to nothing; otherwise the configured plan list is
searched. -/
def resolvePlanTierFromPriceId (stripePlans : List (String × PlanTier))
    (priceId : Option String) : Option PlanTier :=
  match priceId with
  | none => none
  | some p =>
    if p = "" then none
    else (stripePlans.find? (fun plan => plan.1 = p)).map (fun plan => plan.2)

/-- Model of `isTrialActive`. -/
def isTrialActive (user : EntitlementUserLike) (now : Int) : Bool :=
  match user.trialStatus, user.trialEndsAt with
  | .active, some endsAt => now < endsAt
  | _, _ => false

/-- Model of `resolveEntitlements`. -/
def resolveEntitlements (cfg : EntitlementsConfig) (stripePlans : List (String × PlanTier))
    (user : EntitlementUserLike) (now : Int) : ResolvedEntitlements :=
  if user.hasAccess then
    let paidPlanTier :=
      (resolvePlanTierFromPriceId stripePlans user.priceId).getD cfg.paidFallbackPlanTier
    let paidPlanRule := cfg.plans paidPlanTier
    { hasAccess := true
      accessSource := .paid
      accessState := .paid_active
      planTier := some paidPlanTier
      competitorLimit := paidPlanRule.competitorLimit
      insightSeverityGate := some paidPlanRule.insightSeverityGate
      allowedInsightSeverities := cfg.severityGates paidPlanRule.insightSeverityGate
      canReceiveWeeklyDigest := paidPlanRule.canReceiveWeeklyDigest
      trialDays := cfg.trialDays }
  else if isTrialActive user now then
    let trialPlanTier := cfg.trialPlanTier
    let trialPlanRule := cfg.plans trialPlanTier
    { hasAccess := true
      accessSource := .trial
      accessState := .trial_active
      planTier := some trialPlanTier
      competitorLimit := trialPlanRule.competitorLimit
      insightSeverityGate := some trialPlanRule.insightSeverityGate
      allowedInsightSeverities := cfg.severityGates trialPlanRule.insightSeverityGate
      canReceiveWeeklyDigest := false
      trialDays := cfg.trialDays }
  else
    { hasAccess := false
      accessSource := .noAccess
      accessState := .inactive
      planTier := none
      competitorLimit := 0
      insightSeverityGate := none
      allowedInsightSeverities := []
      canReceiveWeeklyDigest := false
      trialDays := cfg.trialDays }

/-- Model of `canGenerateInsight`. -/
def canGenerateInsight (entitlements : ResolvedEntitlements) (severity : DiffSeverity) : Bool :=
  entitlements.hasAccess && entitlements.allowedInsightSeverities.contains severity

/-! Insight builder (`libs/crawler/insight`). -/

/-- Price-change summary derived from the bucketed diff. -/
structure PriceChangeSummary where
  added : Nat
  removed : Nat
  updated : Nat
deriving DecidableEq, Repr

/-- Model of `getPriceChangeSummary`: sum the three per-bucket list lengths.
The defensive `Array.isArray` re-checks of the untyped JSON are subsumed by
the structured `NormalizedDiff` type. -/
def getPriceChangeSummary (normalizedDiff : NormalizedDiff) : PriceChangeSummary :=
  normalizedDiff.priceChanges.foldl
    (fun summary entry =>
      { added := summary.added + entry.addedAmounts.length
        removed := summary.removed + entry.removedAmounts.length
        updated := summary.updated + entry.updatedAmounts.length })
    { added := 0, removed := 0, updated := 0 }

/-- The severity literal as a string. -/
def severityStrJ : DiffSeverity → JSStr
  | .low => jstr "low"
  | .medium => jstr "medium"
  | .high => jstr "high"

/-- Model of `createActionItems`. -/
def createActionItems (severity : DiffSeverity) (verificationState : DiffVerificationState)
    (summary : PriceChangeSummary) : List JSStr :=
  let actions :=
    (if severity = .high then
      [jstr "Review competitor positioning and update your pricing strategy within 24 hours."]
    else []) ++
    (if 0 < summary.updated then
      [jstr "Compare changed price points against your plan tiers and conversion funnel performance."]
    else []) ++
    (if 0 < summary.added ∨ 0 < summary.removed then
      [jstr "Audit your sales messaging for affected segments and adjust objection handling."]
    else []) ++
    (if verificationState = .unverified then
      [jstr "Manually verify the competitor pricing page before acting on this change."]
    else [])
  if actions.isEmpty then
    [jstr "Monitor this competitor for repeated movement before making pricing changes."]
  else actions

/-- Model of `getRiskLabel` (echoes the severity). -/
def getRiskLabel (severity : DiffSeverity) : DiffSeverity := severity

/-- The recommendation object built for an insight. -/
structure InsightRecommendation where
  headline : JSStr
  summary : JSStr
  risk : DiffSeverity
  severity : DiffSeverity
  verificationState : DiffVerificationState
  actionItems : List JSStr
  diffSummary : PriceChangeSummary
deriving DecidableEq, Repr

/-- The create-input of an insight (`InsightBuildResult.createInput`); ids are
carried opaquely as naturals. -/
structure InsightCreateInput where
  userId : Nat
  companyId : Nat
  diffId : Nat
  model : JSStr
  promptTokens : Nat
  completionTokens : Nat
  totalCostUsd : ℚ
  recommendation : InsightRecommendation
  severityGate : InsightSeverityGate
  generatedAt : Int
deriving DecidableEq, Repr

/-- Input of `buildInsightFromDiff` (`InsightBuildInput`). -/
structure InsightBuildInput where
  user : EntitlementUserLike
  userId : Nat
  companyId : Nat
  diffId : Nat
  severity : DiffSeverity
  verificationState : DiffVerificationState
  normalizedDiff : NormalizedDiff
  now : Int
deriving DecidableEq, Repr

/-- Result of `buildInsightFromDiff` (`InsightBuildResult`). -/
structure InsightBuildResult where
  shouldCreate : Bool
  reason : Option JSStr
  createInput : Option InsightCreateInput
deriving DecidableEq, Repr

/-- The severity-gate literal as a string. -/
def gateStrJ : InsightSeverityGate → JSStr
  | .high_only => jstr "high_only"
  | .high_and_medium => jstr "high_and_medium"

/-- Model of `buildInsightFromDiff` from `libs/crawler/insight`. -/
def buildInsightFromDiff (cfg : EntitlementsConfig) (stripePlans : List (String × PlanTier))
    (input : InsightBuildInput) : InsightBuildResult :=
  let entitlements := resolveEntitlements cfg stripePlans input.user input.now
  match entitlements.insightSeverityGate with
  | none =>
    { shouldCreate := false
      reason := some (jstr "No insight severity gate available for user")
      createInput := none }
  | some gate =>
    if !canGenerateInsight entitlements input.severity then
      { shouldCreate := false
        reason := some (jstr "Severity " ++ severityStrJ input.severity ++
          jstr " not allowed for plan gate " ++ gateStrJ gate)
        createInput := none }
    else
      let summary := getPriceChangeSummary input.normalizedDiff
      let recommendation : InsightRecommendation :=
        { headline := jstr "Competitor pricing moved (" ++ severityStrJ input.severity ++ jstr ")"
          summary :=
            if 0 < summary.updated then
              natDigitsJ summary.updated ++ jstr " existing price points changed."
            else jstr "New pricing structure changes were detected."
          risk := getRiskLabel input.severity
          severity := input.severity
          verificationState := input.verificationState
          actionItems := createActionItems input.severity input.verificationState summary
          diffSummary := summary }
      { shouldCreate := true
        reason := none
        createInput := some
          { userId := input.userId
            companyId := input.companyId
            diffId := input.diffId
            model := jstr "rules-v1"
            promptTokens := 0
            completionTokens := 0
            totalCostUsd := 0
            recommendation := recommendation
            severityGate := gate
            generatedAt := input.now } }

/-! Batch runner (`libs/crawler/runner`, the `processCompany` state machine).
Database reads (user, previous snapshot) and the network stages (discovery,
extraction) are passed in as oracle inputs; the records the code would write
(snapshot, diff, insight, the finalizer's company update) are returned. -/

/-- Company fields read by the runner. -/
structure CompanyRec where
  userId : Nat
  primaryPricingUrl : Option String
  homepageUrl : Option String
  domain : String
  latestContentHash : Option String
deriving DecidableEq, Repr

/-- Successful extraction (`CrawlExtractionSuccess`, `captureMethod` static). -/
structure CrawlExtractionOk where
  contentHash : String
  pricingPayload : NormalizedPricingPayload
  confidence : ℚ
  isVerified : Bool
deriving DecidableEq, Repr

/-- Result of `fetchAndExtractPricing` as consumed by the runner
(`CrawlExtractionResult`); the failure status is one of
`blocked`/`manual_needed`/`error`. -/
inductive RunnerExtraction
  | ok (r : CrawlExtractionOk)
  | failed (status : CompanyCrawlStatus) (error : String)
deriving DecidableEq, Repr

/-- The previous snapshot as loaded from the store; `pricingPayload = none`
models a record whose raw JSON payload does not validate (missing
`sourceUrl`, non-object, ...). -/
structure SnapshotRec where
  pricingPayload : Option NormalizedPricingPayload
deriving DecidableEq, Repr

/-- Model of `toNormalizedPayload`: validate the raw payload and
re-canonicalize it. -/
def toNormalizedPayload (payload : Option NormalizedPricingPayload) :
    Option NormalizedPricingPayload :=
  payload.map canonicalizePricingPayload

/-- The configured per-status backoff delays (`constants.ts` values, read
from the environment). -/
structure CrawlDelays where
  successMs : Int
  errorMs : Int
  blockedMs : Int
  manualMs : Int
deriving DecidableEq, Repr

/-- Model of `statusToNextDelayMs`. -/
def statusToNextDelayMs (delays : CrawlDelays) : CompanyCrawlStatus → Int
  | .blocked => delays.blockedMs
  | .manual_needed => delays.manualMs
  | .error => delays.errorMs
  | _ => delays.successMs

/-- Per-item result record (`CrawlCompanyResult`, minus the id echo). -/
structure CrawlCompanyResult where
  status : CompanyCrawlStatus
  changed : Bool
  snapshotCreated : Bool
  diffCreated : Bool
  insightCreated : Bool
  skippedByHash : Bool
  reason : Option String
deriving DecidableEq, Repr

/-- The company update written by the per-item finalizer. -/
structure FinalizeUpdate where
  lastCrawlStatus : CompanyCrawlStatus
  nextCrawlAt : Int
  crawlLeaseUntil : Option Int
  latestContentHash : Option String
  latestConfidence : Option ℚ
  lastCrawlError : Option String
deriving DecidableEq, Repr

/-- Everything one `processCompany` call produces: the batch-item result, the
records written on the happy path, and the finalizer's update. -/
structure ProcessOutcome where
  result : CrawlCompanyResult
  createdDiff : Option PricingDiffResult
  createdInsight : Option InsightCreateInput
  finalize : FinalizeUpdate
deriving DecidableEq, Repr

/-- The oracle environment of one `processCompany` call. -/
structure RunnerEnv where
  company : CompanyRec
  user : Option EntitlementUserLike
  userId : Nat
  companyId : Nat
  diffId : Nat
  extraction : RunnerExtraction
  previousSnapshot : Option SnapshotRec
  discoveryRecommendedPrimaryUrl : Option String
  cfg : EntitlementsConfig
  stripePlans : List (String × PlanTier)
  delays : CrawlDelays
  now : Int

/-- The source URL after the resolving stage: the primary pricing URL when
set, otherwise (when a homepage exists) whatever discovery recommends. -/
def resolvedSourceUrl (env : RunnerEnv) : Option String :=
  match env.company.primaryPricingUrl with
  | some url => some url
  | none =>
    match env.company.homepageUrl with
    | some _ => env.discoveryRecommendedPrimaryUrl
    | none => none

/-- Build the finalizer update (the `finally` block of `processCompany`). -/
def finalizeCompany (env : RunnerEnv) (finalStatus : CompanyCrawlStatus)
    (finalErrorMessage : Option String) (latestContentHash : Option String)
    (latestConfidence : Option ℚ) : FinalizeUpdate :=
  { lastCrawlStatus := finalStatus
    nextCrawlAt := env.now + statusToNextDelayMs env.delays finalStatus
    crawlLeaseUntil := none
    latestContentHash := latestContentHash
    latestConfidence := latestConfidence
    lastCrawlError := finalErrorMessage }

/-- Model of `processCompany` from the runner: resolve a source URL, check
the owning user's entitlements, extract, short-circuit on an unchanged
content hash, otherwise snapshot, diff, and conditionally build an insight;
always finalize. -/
def processCompany (env : RunnerEnv) : ProcessOutcome :=
  match resolvedSourceUrl env with
  | none =>
    { result :=
        { status := .manual_needed, changed := false, snapshotCreated := false
          diffCreated := false, insightCreated := false, skippedByHash := false
          reason := some "No crawl URL is available" }
      createdDiff := none
      createdInsight := none
      finalize := finalizeCompany env .manual_needed (some "No crawl URL is available") none none }
  | some _ =>
    match env.user with
    | none =>
      { result :=
          { status := .error, changed := false, snapshotCreated := false
            diffCreated := false, insightCreated := false, skippedByHash := false
            reason := some "User not found for company" }
        createdDiff := none
        createdInsight := none
        finalize := finalizeCompany env .error (some "User not found for company") none none }
    | some user =>
      if !(resolveEntitlements env.cfg env.stripePlans user env.now).hasAccess then
        { result :=
            { status := .idle, changed := false, snapshotCreated := false
              diffCreated := false, insightCreated := false, skippedByHash := false
              reason := some "User is not eligible for competitor crawling" }
          createdDiff := none
          createdInsight := none
          finalize :=
            finalizeCompany env .idle (some "User is not eligible for competitor crawling")
              none none }
      else
        match env.extraction with
        | .failed status err =>
          { result :=
              { status := status, changed := false, snapshotCreated := false
                diffCreated := false, insightCreated := false, skippedByHash := false
                reason := some err }
            createdDiff := none
            createdInsight := none
            finalize := finalizeCompany env status (some err) none none }
        | .ok extraction =>
          let latestContentHash := some extraction.contentHash
          let latestConfidence := some extraction.confidence
          if (match env.company.latestContentHash with
              | some stored => !(stored = "") && stored = extraction.contentHash
              | none => false) = true then
            { result :=
                { status := .ok, changed := false, snapshotCreated := false
                  diffCreated := false, insightCreated := false, skippedByHash := true
                  reason := none }
              createdDiff := none
              createdInsight := none
              finalize := finalizeCompany env .ok none latestContentHash latestConfidence }
          else
            let diffResult :=
              match env.previousSnapshot with
              | none => none
              | some previousSnapshot =>
                match toNormalizedPayload previousSnapshot.pricingPayload with
                | none => none
                | some previousPayload =>
                  generatePricingDiff previousPayload extraction.pricingPayload
                    extraction.isVerified
            match diffResult with
            | none =>
              { result :=
                  { status := .ok, changed := true, snapshotCreated := true
                    diffCreated := false, insightCreated := false, skippedByHash := false
                    reason := none }
                createdDiff := none
                createdInsight := none
                finalize := finalizeCompany env .ok none latestContentHash latestConfidence }
            | some diff =>
              let insight :=
                buildInsightFromDiff env.cfg env.stripePlans
                  { user := user
                    userId := env.userId
                    companyId := env.companyId
                    diffId := env.diffId
                    severity := diff.severity
                    verificationState := diff.verificationState
                    normalizedDiff := diff.normalizedDiff
                    now := env.now }
              let insightWritten :=
                match insight.createInput with
                | some createInput => if insight.shouldCreate then some createInput else none
                | none => none
              { result :=
                  { status := .ok, changed := true, snapshotCreated := true
                    diffCreated := true, insightCreated := insightWritten.isSome
                    skippedByHash := false, reason := none }
                createdDiff := some diff
                createdInsight := insightWritten
                finalize := finalizeCompany env .ok none latestContentHash latestConfidence }

/-! Cron authentication (`libs/cron-auth.ts`) and the scheduler entrypoint's
authentication gate (`app/api/cron/crawl/route.ts`). -/

/-- Model of `getBearerToken`: split the header on spaces, require the first
part to be `bearer` case-insensitively and the second to be non-empty. -/
def getBearerToken (authorizationHeader : Option JSStr) : Option JSStr :=
  match authorizationHeader with
  | none => none
  | some header =>
    let parts := splitSepJ 32 header
    let scheme := parts[0]?
    let token := parts[1]?
    match scheme, token with
    | some s, some t =>
      if toLowerJ s ≠ jstr "bearer" ∨ t.isEmpty then none else some (trimJ t)
    | _, _ => none

/-- Model of `isCronAuthorized`: a missing or blank `CRON_SECRET` rejects
everything; otherwise either trimmed header must equal the trimmed secret. -/
def isCronAuthorized (cronSecretEnv : Option JSStr) (xCronSecretHeader : Option JSStr)
    (authorizationHeader : Option JSStr) : Bool :=
  match cronSecretEnv.map trimJ with
  | none => false
  | some expectedSecret =>
    if expectedSecret.isEmpty then false
    else
      (match xCronSecretHeader.map trimJ with
        | some headerSecret => headerSecret = expectedSecret
        | none => false) ||
      (match getBearerToken authorizationHeader with
        | some bearerSecret => bearerSecret = expectedSecret
        | none => false)

/-- An HTTP response, reduced to status code and a body tag. -/
structure HttpResponse where
  status : Nat
  body : JSStr
deriving DecidableEq, Repr

/-- Model of `requireCronAuth`: `some` 401 response when unauthorized. -/
def requireCronAuth (cronSecretEnv : Option JSStr) (xCronSecretHeader : Option JSStr)
    (authorizationHeader : Option JSStr) : Option HttpResponse :=
  if !isCronAuthorized cronSecretEnv xCronSecretHeader authorizationHeader then
    some { status := 401, body := jstr "Unauthorized" }
  else none

/-- Model of the `handle` gate in `app/api/cron/crawl/route.ts`: the
unauthorized response short-circuits, otherwise the inner pipeline's
response is returned. -/
def cronCrawlHandle (cronSecretEnv : Option JSStr) (xCronSecretHeader : Option JSStr)
    (authorizationHeader : Option JSStr) (innerResponse : HttpResponse) : HttpResponse :=
  match requireCronAuth cronSecretEnv xCronSecretHeader authorizationHeader with
  | some unauthorizedResponse => unauthorizedResponse
  | none => innerResponse

/-! Crawl-now and retry-crawl handlers
(`app/api/companies/[companyId]/retry-crawl/route.ts`, lease-handling core
after auth, rate limit, ownership and type checks). -/

/-- Response and persisted fields of the crawl-now handler. -/
structure CrawlNowOutcome where
  httpStatus : Nat
  scheduled : Bool
  nextCrawlAt : Option Int
  crawlLeaseUntil : Option Int
  leaseState : JSStr
  leaseCleared : Bool
deriving DecidableEq, Repr

/-- Model of the crawl-now `POST` handler's lease logic: always schedule
`nextCrawlAt = now`, clear the lease only when present and stale, and report
the lease state in a 200 response. -/
def crawlNowHandler (crawlLeaseUntil : Option Int) (now : Int) :
    CrawlNowOutcome :=
  let hasLease := crawlLeaseUntil.isSome
  let leaseIsActive : Bool :=
    match crawlLeaseUntil with
    | some leaseUntil => decide (now < leaseUntil)
    | none => false
  let shouldClearLease := hasLease && !leaseIsActive
  { httpStatus := 200
    scheduled := true
    nextCrawlAt := some now
    crawlLeaseUntil := if shouldClearLease then none else crawlLeaseUntil
    leaseState :=
      if leaseIsActive then jstr "active"
      else if hasLease then jstr "stale_or_expired"
      else jstr "none"
    leaseCleared := shouldClearLease }

/-- Response and persisted fields of the retry-crawl handler. -/
structure RetryCrawlOutcome where
  httpStatus : Nat
  retried : Bool
  lastCrawlStatus : Option CompanyCrawlStatus
  nextCrawlAt : Option Int
  crawlLeaseUntil : Option Int
  leaseState : JSStr
  leaseCleared : Bool
deriving DecidableEq, Repr

/-- Model of the retry-crawl `POST` handler's lease logic: a 409 conflict
when the lease is active (nothing mutated), otherwise reset the error state,
schedule `nextCrawlAt = now`, and clear a stale lease. -/
def retryCrawlHandler (crawlLeaseUntil : Option Int) (nextCrawlAt : Option Int)
    (lastCrawlStatus : Option CompanyCrawlStatus) (now : Int) : RetryCrawlOutcome :=
  let hasLease := crawlLeaseUntil.isSome
  let leaseIsActive : Bool :=
    match crawlLeaseUntil with
    | some leaseUntil => decide (now < leaseUntil)
    | none => false
  if leaseIsActive then
    { httpStatus := 409
      retried := false
      lastCrawlStatus := lastCrawlStatus
      nextCrawlAt := nextCrawlAt
      crawlLeaseUntil := crawlLeaseUntil
      leaseState := jstr "active"
      leaseCleared := false }
  else
    { httpStatus := 200
      retried := true
      lastCrawlStatus := some .idle
      nextCrawlAt := some now
      crawlLeaseUntil := if hasLease then none else crawlLeaseUntil
      leaseState := if hasLease then jstr "stale_or_expired" else jstr "none"
      leaseCleared := hasLease }

/-! Specification-side formulations and concrete inputs used by the
theorems below. -/

/-- The specification's formulation of the updated pairs of a bucket: pair
previous and current amounts positionally, compute the absolute delta and
the percent delta (100 when the previous amount is 0), and record the pair
iff the absolute delta is at least 0.50 and the percent delta at least 1.
Stated for comparison with `updatedAmountsOf` (the code's index loop). -/
def specUpdatedPairs (previousAmounts currentAmounts : List ℚ) : List UpdatedAmount :=
  (previousAmounts.zip currentAmounts).filterMap
    (fun (pair : ℚ × ℚ) =>
      if 1/2 ≤ |pair.2 - pair.1| ∧
          1 ≤ (if pair.1 = 0 then (100 : ℚ) else |pair.2 - pair.1| / pair.1 * 100) then
        some
          { previousAmount := pair.1
            currentAmount := pair.2
            deltaPercent :=
              round2 (if pair.1 = 0 then (100 : ℚ) else |pair.2 - pair.1| / pair.1 * 100) }
      else none)

/-- Every price-mention currency is unchanged by uppercasing. -/
def currenciesUppercaseB (payload : NormalizedPricingPayload) : Bool :=
  payload.priceMentions.all (fun m => toUpperJ m.currency == m.currency)

/-- An optional text field is absent, empty, or has whitespace-survivable
content (its whitespace normalization is non-empty). -/
def textNormOkB (text : Option JSStr) : Bool :=
  match text with
  | none => true
  | some t => t.isEmpty || !(normalizeWhitespace t).isEmpty

/-- The host of an already-normalized URL is stable under the one-shot
`www.`-strip (vacuously true for unparseable strings). -/
def hostWwwStableB (url : JSStr) : Bool :=
  match parseUrl url with
  | some r => stripWwwOnce r.host == r.host
  | none => true

/-- A sample entitlements configuration (the spec's plan rule table). -/
def sampleCfg : EntitlementsConfig :=
  { trialDays := 14
    trialPlanTier := .starter
    paidFallbackPlanTier := .starter
    plans := fun tier =>
      match tier with
      | .starter =>
        { competitorLimit := 3, insightSeverityGate := .high_only, canReceiveWeeklyDigest := true }
      | .pro =>
        { competitorLimit := 10, insightSeverityGate := .high_and_medium
          canReceiveWeeklyDigest := true }
    severityGates := fun gate =>
      match gate with
      | .high_only => [.high]
      | .high_and_medium => [.high, .medium] }

/-- Sample backoff delays (the documented defaults, in milliseconds). -/
def sampleDelays : CrawlDelays :=
  { successMs := 86400000, errorMs := 21600000, blockedMs := 129600000, manualMs := 172800000 }

/-- A paid user (no price id: the paid fallback tier applies). -/
def sampleUser : EntitlementUserLike :=
  { hasAccess := true, priceId := none, trialStatus := .not_started
    trialStartedAt := none, trialEndsAt := none }

/-- An empty payload with one `(amount, currency, period)` helper. -/
def samplePayload (mentions : List NormalizedPricePoint) : NormalizedPricingPayload :=
  { sourceUrl := [104], pageTitle := none, pageDescription := none
    planNames := [], priceMentions := mentions, customPricingHints := [] }

/-- Runner environment exercising the hash gate: extraction succeeded and its
content hash equals the stored one. -/
def c1Env : RunnerEnv :=
  { company :=
      { userId := 1, primaryPricingUrl := some "https://acme.example/pricing"
        homepageUrl := none, domain := "acme.example", latestContentHash := some "h1" }
    user := some sampleUser
    userId := 1
    companyId := 2
    diffId := 3
    extraction := .ok
      { contentHash := "h1"
        pricingPayload := samplePayload [{ amount := 19, currency := [85, 83, 68], period := .month }]
        confidence := 9/10
        isVerified := true }
    previousSnapshot := none
    discoveryRecommendedPrimaryUrl := none
    cfg := sampleCfg
    stripePlans := []
    delays := sampleDelays
    now := 1000 }

/-- Runner environment exercising insight creation: the content changed, the
diff pairs `20 → 40` in `(USD, month)` (delta 100 %, severity high), and the
paid owner's `high_only` gate admits it. -/
def c3Env : RunnerEnv :=
  { company :=
      { userId := 1, primaryPricingUrl := some "https://acme.example/pricing"
        homepageUrl := none, domain := "acme.example", latestContentHash := some "h1" }
    user := some sampleUser
    userId := 1
    companyId := 2
    diffId := 3
    extraction := .ok
      { contentHash := "h2"
        pricingPayload := samplePayload [{ amount := 40, currency := [85, 83, 68], period := .month }]
        confidence := 9/10
        isVerified := true }
    previousSnapshot := some
      { pricingPayload := some
          (samplePayload [{ amount := 20, currency := [85, 83, 68], period := .month }]) }
    discoveryRecommendedPrimaryUrl := none
    cfg := sampleCfg
    stripePlans := []
    delays := sampleDelays
    now := 1000 }

/-- Counterexample payload for canonicalizer idempotence: the same mention
once with lowercase and once with uppercase currency.  The first pass keeps
both (distinct `Map` keys) but stores both with currency `USD`; the second
pass collapses them. -/
def c6Bad : NormalizedPricingPayload :=
  samplePayload
    [{ amount := 10, currency := [117, 115, 100], period := .month },
     { amount := 10, currency := [85, 83, 68], period := .month }]

/-- A payload within the amended idempotence domain: uppercase currencies and
a title with non-whitespace content. -/
def c6Good : NormalizedPricingPayload :=
  { sourceUrl := [104]
    pageTitle := some [32, 65, 32, 32, 66]
    pageDescription := none
    planNames := [[80, 114, 111], [112, 114, 111]]
    priceMentions :=
      [{ amount := 19, currency := [85, 83, 68], period := .month },
       { amount := 19, currency := [85, 83, 68], period := .month }]
    customPricingHints := [] }

/-- The single `(USD, month)` bucket change of the `c3Env` diff. -/
def c3Bucket : PriceBucketChange :=
  { currency := [85, 83, 68], period := .month, addedAmounts := []
    removedAmounts := []
    updatedAmounts := [{ previousAmount := 20, currentAmount := 40, deltaPercent := 100 }] }

/-- The normalized diff generated for `c3Env`: one `(USD, month)` bucket with
the updated pair `20 → 40` (100 %). -/
def c3NDiff : NormalizedDiff :=
  { priceChanges := [c3Bucket]
    addedHints := []
    removedHints := []
    previousPriceCount := 1
    currentPriceCount := 1
    previousPlanCount := 0
    currentPlanCount := 0 }

/-- The diff record generated for `c3Env`: severity high, verified. -/
def c3Diff : PricingDiffResult :=
  { normalizedDiff := c3NDiff
    severity := .high
    verificationState := .verified }

/-- The insight written for `c3Env`. -/
def c3Ins : InsightCreateInput :=
  { userId := 1, companyId := 2, diffId := 3, model := jstr "rules-v1"
    promptTokens := 0, completionTokens := 0, totalCostUsd := 0
    recommendation :=
      { headline := jstr "Competitor pricing moved (" ++ jstr "high" ++ jstr ")"
        summary := [49] ++ jstr " existing price points changed."
        risk := .high
        severity := .high
        verificationState := .verified
        actionItems :=
          [jstr "Review competitor positioning and update your pricing strategy within 24 hours.",
           jstr "Compare changed price points against your plan tiers and conversion funnel performance."]
        diffSummary := { added := 0, removed := 0, updated := 1 } }
    severityGate := .high_only
    generatedAt := 1000 }

/-! Theorems. -/

/-- C10: with `CRON_SECRET` unset or empty, the cron scheduler endpoint
answers 401 Unauthorized regardless of the `x-cron-secret` and
`Authorization` headers supplied, and the authorization predicate is false. -/
theorem cron_missing_secret_rejects_all (cronSecretEnv : Option JSStr)
    (hsecret : cronSecretEnv = none ∨ cronSecretEnv = some [])
    (xCronSecretHeader authorizationHeader : Option JSStr) (innerResponse : HttpResponse) :
    cronCrawlHandle cronSecretEnv xCronSecretHeader authorizationHeader innerResponse =
        { status := 401, body := jstr "Unauthorized" } ∧
      isCronAuthorized cronSecretEnv xCronSecretHeader authorizationHeader = false := by
  have hauth : isCronAuthorized cronSecretEnv xCronSecretHeader authorizationHeader = false := by
    rcases hsecret with h | h <;> subst h <;>
      simp [isCronAuthorized, trimJ]
  refine ⟨?_, hauth⟩
  simp [cronCrawlHandle, requireCronAuth, hauth]

/-- C10 witness: a concrete request carrying both headers is still rejected
when the secret is unset. -/
theorem cron_missing_secret_rejects_all_witness :
    cronCrawlHandle none (some (jstr "s3cret")) (some (jstr "Bearer s3cret"))
        { status := 200, body := [] } =
      { status := 401, body := jstr "Unauthorized" } :=
  (cron_missing_secret_rejects_all none (Or.inl rfl) (some (jstr "s3cret"))
    (some (jstr "Bearer s3cret")) { status := 200, body := [] }).1

/-- C2 counterexample: a timed-out fetch is classified with status
`manual_needed`, not `error` — the abort is surfaced as a synthetic HTTP 408,
and 408 falls in the generic 4xx (`manual_needed`) class of
`classifyFetchFailure`. -/
theorem fetch_timeout_not_error_status :
    fetchStaticHtml .timeout = .failure { status := 408, error := jstr "Request timed out" } ∧
      (classifyFetchFailure { status := 408, error := jstr "Request timed out" }).status =
        .manual_needed ∧
      (classifyFetchFailure { status := 408, error := jstr "Request timed out" }).status ≠
        CompanyCrawlStatus.error := by
  refine ⟨rfl, rfl, ?_⟩
  intro h
  simp [classifyFetchFailure, BLOCKED_HTTP_STATUSES] at h

/-- C2 amended: a timed-out fetch yields the failure record
`{status: 408, error: "Request timed out"}`, which the classifier maps to a
`manual_needed` extraction failure that preserves the reason string. -/
theorem fetch_timeout_classified_manual_needed :
    fetchStaticHtml .timeout = .failure { status := 408, error := jstr "Request timed out" } ∧
      classifyFetchFailure { status := 408, error := jstr "Request timed out" } =
        { status := .manual_needed, error := jstr "Request timed out", confidence := 0
          isVerified := false } := by
  constructor
  · rfl
  · rfl

/-- C8 counterexample: with an active lease (`leaseUntil = 100 > now = 50`)
the crawl-now handler does not report a conflict — it answers 200, schedules
`nextCrawlAt = now`, and leaves the lease in place. -/
theorem crawl_now_active_lease_not_conflicting :
    (crawlNowHandler (some 100) 50).httpStatus = 200 ∧
      (crawlNowHandler (some 100) 50).httpStatus ≠ 409 ∧
      (crawlNowHandler (some 100) 50).scheduled = true ∧
      (crawlNowHandler (some 100) 50).nextCrawlAt = some 50 ∧
      (crawlNowHandler (some 100) 50).crawlLeaseUntil = some 100 := by
  refine ⟨rfl, by decide, rfl, ?_, ?_⟩ <;> decide

/-- C8 amended: crawl-now always schedules `nextCrawlAt = now` and answers
200; it clears the lease only when one is present and stale, leaves an
active lease untouched and reports it via `leaseState = "active"`.  The
conflict (409) response for an active lease belongs to the retry-crawl
handler, which then mutates nothing. -/
theorem crawl_now_lease_semantics (crawlLeaseUntil : Option Int) (now : Int)
    (nextCrawlAt : Option Int) (lastCrawlStatus : Option CompanyCrawlStatus) :
    (crawlNowHandler crawlLeaseUntil now).httpStatus = 200 ∧
      (crawlNowHandler crawlLeaseUntil now).nextCrawlAt = some now ∧
      (crawlNowHandler crawlLeaseUntil now).crawlLeaseUntil =
        (match crawlLeaseUntil with
          | some leaseUntil => if now < leaseUntil then some leaseUntil else none
          | none => none) ∧
      (crawlNowHandler crawlLeaseUntil now).leaseCleared =
        (match crawlLeaseUntil with
          | some leaseUntil => decide (leaseUntil ≤ now)
          | none => false) ∧
      (crawlNowHandler crawlLeaseUntil now).leaseState =
        (match crawlLeaseUntil with
          | some leaseUntil => if now < leaseUntil then jstr "active" else jstr "stale_or_expired"
          | none => jstr "none") ∧
      (retryCrawlHandler crawlLeaseUntil nextCrawlAt lastCrawlStatus now).httpStatus =
        (match crawlLeaseUntil with
          | some leaseUntil => if now < leaseUntil then 409 else 200
          | none => 200) ∧
      ((match crawlLeaseUntil with
          | some leaseUntil => now < leaseUntil
          | none => False) →
        (retryCrawlHandler crawlLeaseUntil nextCrawlAt lastCrawlStatus now).crawlLeaseUntil =
            crawlLeaseUntil ∧
          (retryCrawlHandler crawlLeaseUntil nextCrawlAt lastCrawlStatus now).nextCrawlAt =
            nextCrawlAt) := by
  rcases crawlLeaseUntil with _ | leaseUntil
  · simp [crawlNowHandler, retryCrawlHandler]
  · by_cases hactive : now < leaseUntil <;>
      · simp [crawlNowHandler, retryCrawlHandler, hactive]
        try omega

/-- C8 witness: the amended lease semantics at a concrete active lease. -/
theorem crawl_now_lease_semantics_witness :
    (crawlNowHandler (some 100) 50).crawlLeaseUntil = some 100 ∧
      (retryCrawlHandler (some 100) (some 7) (some .ok) 50).httpStatus = 409 ∧
      (retryCrawlHandler (some 100) (some 7) (some .ok) 50).crawlLeaseUntil = some 100 := by
  have h := crawl_now_lease_semantics (some 100) 50 (some 7) (some .ok)
  refine ⟨?_, ?_, ?_⟩
  · have h3 := h.2.2.1
    simpa using h3
  · have h6 := h.2.2.2.2.2.1
    simpa using h6
  · exact (h.2.2.2.2.2.2 (by omega)).1

/-- A `reduce((s, x) => s + f(x), init)` is `init` plus the sum of the
per-element contributions. -/
theorem foldl_add_eq_sum {α : Type} (f : α → Nat) (l : List α) (init : Nat) :
    l.foldl (fun s x => s + f x) init = init + (l.map f).sum := by
  induction l generalizing init with
  | nil => simp
  | cons x xs ih =>
    simp only [List.foldl_cons, List.map_cons, List.sum_cons, ih]
    omega

/-- The `totalAdded` reduction counts the concatenation of all bucket
`addedAmounts`. -/
theorem totalAdded_eq_length (changes : List PriceBucketChange) :
    totalAdded changes = (changes.flatMap (fun c => c.addedAmounts)).length := by
  rw [totalAdded, foldl_add_eq_sum, List.length_flatMap]
  simp [Function.comp_def]

/-- The `totalRemoved` reduction counts the concatenation of all bucket
`removedAmounts`. -/
theorem totalRemoved_eq_length (changes : List PriceBucketChange) :
    totalRemoved changes = (changes.flatMap (fun c => c.removedAmounts)).length := by
  rw [totalRemoved, foldl_add_eq_sum, List.length_flatMap]
  simp [Function.comp_def]

/-- The `totalUpdates` reduction counts the concatenation of all bucket
`updatedAmounts`. -/
theorem totalUpdates_eq_length (changes : List PriceBucketChange) :
    totalUpdates changes = (changes.flatMap (fun c => c.updatedAmounts)).length := by
  rw [totalUpdates, foldl_add_eq_sum, List.length_flatMap]
  simp [Function.comp_def]

/-- A threshold is reached by a `reduce(max, a)` iff it is reached by the
seed or by some element. -/
theorem foldl_max_ge_iff {α : Type} (g : α → ℚ) (l : List α) (a c : ℚ) :
    c ≤ l.foldl (fun m x => max m (g x)) a ↔ c ≤ a ∨ ∃ x ∈ l, c ≤ g x := by
  induction l generalizing a with
  | nil => simp
  | cons x xs ih =>
    simp only [List.foldl_cons, ih, le_max_iff, List.mem_cons]
    constructor
    · rintro (⟨h | h⟩ | ⟨y, hy, h⟩)
      · exact Or.inl h
      · exact Or.inr ⟨x, Or.inl rfl, h⟩
      · exact Or.inr ⟨y, Or.inr hy, h⟩
    · rintro (h | ⟨y, rfl | hy, h⟩)
      · exact Or.inl (Or.inl h)
      · exact Or.inl (Or.inr h)
      · exact Or.inr ⟨y, hy, h⟩

/-- A positive threshold is reached by `maxDeltaPercent` iff some updated
pair's recorded percentage reaches it. -/
theorem maxDeltaPercent_ge_iff (changes : List PriceBucketChange) (c : ℚ) (hc : 0 < c) :
    c ≤ maxDeltaPercent changes ↔
      ∃ u ∈ changes.flatMap (fun ch => ch.updatedAmounts), c ≤ u.deltaPercent := by
  rw [maxDeltaPercent, foldl_max_ge_iff]
  constructor
  · rintro (h | ⟨ch, hch, h⟩)
    · exact absurd h (not_le.mpr hc)
    · rw [foldl_max_ge_iff] at h
      rcases h with h | ⟨u, hu, h⟩
      · exact absurd h (not_le.mpr hc)
      · exact ⟨u, List.mem_flatMap.mpr ⟨ch, hch, hu⟩, h⟩
  · rintro ⟨u, hu, h⟩
    rcases List.mem_flatMap.mp hu with ⟨ch, hch, hu'⟩
    refine Or.inr ⟨ch, hch, ?_⟩
    rw [foldl_max_ge_iff]
    exact Or.inr ⟨u, hu', h⟩

/-- C4: severity characterization.  For any bucketed change list, the
assigned severity is `high` iff some updated pair's percent delta is ≥ 20 or
at least two amounts were added and at least two removed; otherwise it is
`medium` iff some updated pair's percent delta is ≥ 10, or the total number
of updated, added and removed amounts is ≥ 2, or a custom-pricing-hint
change occurred; otherwise it is `low`. -/
theorem determineSeverity_characterization (changes : List PriceBucketChange)
    (customHintChanged : Bool) :
    (determineSeverity changes customHintChanged = .high ↔
      (∃ u ∈ changes.flatMap (fun ch => ch.updatedAmounts), (20 : ℚ) ≤ u.deltaPercent) ∨
        (2 ≤ (changes.flatMap (fun ch => ch.addedAmounts)).length ∧
          2 ≤ (changes.flatMap (fun ch => ch.removedAmounts)).length)) ∧
      (determineSeverity changes customHintChanged = .medium ↔
        (¬((∃ u ∈ changes.flatMap (fun ch => ch.updatedAmounts), (20 : ℚ) ≤ u.deltaPercent) ∨
            (2 ≤ (changes.flatMap (fun ch => ch.addedAmounts)).length ∧
              2 ≤ (changes.flatMap (fun ch => ch.removedAmounts)).length))) ∧
          ((∃ u ∈ changes.flatMap (fun ch => ch.updatedAmounts), (10 : ℚ) ≤ u.deltaPercent) ∨
            2 ≤ (changes.flatMap (fun ch => ch.updatedAmounts)).length +
                (changes.flatMap (fun ch => ch.addedAmounts)).length +
                (changes.flatMap (fun ch => ch.removedAmounts)).length ∨
            customHintChanged = true)) ∧
      (determineSeverity changes customHintChanged = .low ↔
        (¬((∃ u ∈ changes.flatMap (fun ch => ch.updatedAmounts), (20 : ℚ) ≤ u.deltaPercent) ∨
            (2 ≤ (changes.flatMap (fun ch => ch.addedAmounts)).length ∧
              2 ≤ (changes.flatMap (fun ch => ch.removedAmounts)).length))) ∧
          ¬((∃ u ∈ changes.flatMap (fun ch => ch.updatedAmounts), (10 : ℚ) ≤ u.deltaPercent) ∨
            2 ≤ (changes.flatMap (fun ch => ch.updatedAmounts)).length +
                (changes.flatMap (fun ch => ch.addedAmounts)).length +
                (changes.flatMap (fun ch => ch.removedAmounts)).length ∨
            customHintChanged = true)) := by
  have h20 := maxDeltaPercent_ge_iff changes 20 (by norm_num)
  have h10 := maxDeltaPercent_ge_iff changes 10 (by norm_num)
  have hup := totalUpdates_eq_length changes
  have hadd := totalAdded_eq_length changes
  have hrem := totalRemoved_eq_length changes
  have hhighIff :
      (maxDeltaPercent changes ≥ 20 ∨ (totalAdded changes ≥ 2 ∧ totalRemoved changes ≥ 2)) ↔
        ((∃ u ∈ changes.flatMap (fun ch => ch.updatedAmounts), (20 : ℚ) ≤ u.deltaPercent) ∨
          (2 ≤ (changes.flatMap (fun ch => ch.addedAmounts)).length ∧
            2 ≤ (changes.flatMap (fun ch => ch.removedAmounts)).length)) := by
    rw [ge_iff_le, h20, hadd, hrem]
  have hmedIff :
      (maxDeltaPercent changes ≥ 10 ∨
          totalUpdates changes + totalAdded changes + totalRemoved changes ≥ 2 ∨
          customHintChanged = true) ↔
        ((∃ u ∈ changes.flatMap (fun ch => ch.updatedAmounts), (10 : ℚ) ≤ u.deltaPercent) ∨
          2 ≤ (changes.flatMap (fun ch => ch.updatedAmounts)).length +
              (changes.flatMap (fun ch => ch.addedAmounts)).length +
              (changes.flatMap (fun ch => ch.removedAmounts)).length ∨
          customHintChanged = true) := by
    rw [ge_iff_le, h10, hup, hadd, hrem]
  rw [determineSeverity]
  split_ifs with hhigh hmed
  · refine ⟨iff_of_true rfl (hhighIff.mp hhigh), ?_, ?_⟩
    · exact iff_of_false (by decide) (fun h => h.1 (hhighIff.mp hhigh))
    · exact iff_of_false (by decide) (fun h => h.1 (hhighIff.mp hhigh))
  · have hnothigh := fun h => hhigh (hhighIff.mpr h)
    refine ⟨iff_of_false (by decide) hnothigh,
      iff_of_true rfl ⟨hnothigh, hmedIff.mp hmed⟩,
      iff_of_false (by decide) (fun h => h.2 (hmedIff.mp hmed))⟩
  · have hnothigh := fun h => hhigh (hhighIff.mpr h)
    have hnotmed := fun h => hmed (hmedIff.mpr h)
    exact ⟨iff_of_false (by decide) hnothigh, iff_of_false (by decide) (fun h => hnotmed h.2),
      iff_of_true rfl ⟨hnothigh, hnotmed⟩⟩

/-- Absolute value on rationals as a conditional, for numeral evaluation. -/
theorem absRatIte (q : ℚ) : |q| = if 0 ≤ q then q else -q := by
  rcases le_or_lt 0 q with h | h
  · rw [if_pos h, abs_of_nonneg h]
  · rw [if_neg (not_le.mpr h), abs_of_neg h]

/-- With no previous amounts, the index loop records no updated pair. -/
theorem updatedAmountsOf_nil_left (currentAmounts : List ℚ) :
    updatedAmountsOf [] currentAmounts = [] := by
  rw [updatedAmountsOf, List.filterMap_eq_nil_iff]
  intro i _
  simp

/-- With no current amounts, the index loop records no updated pair. -/
theorem updatedAmountsOf_nil_right (previousAmounts : List ℚ) :
    updatedAmountsOf previousAmounts [] = [] := by
  rw [updatedAmountsOf, List.filterMap_eq_nil_iff]
  intro i _
  cases h : previousAmounts[i]? <;> simp [h]

/-- Unfolding of the index loop at a doubly-inhabited head index. -/
theorem updatedAmountsOf_cons (p c : ℚ) (ps cs : List ℚ) :
    updatedAmountsOf (p :: ps) (c :: cs) =
      (if |c - p| ≥ 1/2 ∧ deltaPercentOf p c ≥ 1 then
        [{ previousAmount := p, currentAmount := c
           deltaPercent := round2 (deltaPercentOf p c) }]
      else []) ++ updatedAmountsOf ps cs := by
  rw [updatedAmountsOf, updatedAmountsOf, List.length_cons, List.length_cons,
    Nat.succ_max_succ, List.range_succ_eq_map, List.filterMap_cons, List.filterMap_map]
  simp only [List.getElem?_cons_zero, List.getElem?_cons_succ, Function.comp_def]
  by_cases hc : |c - p| ≥ 1/2 ∧ deltaPercentOf p c ≥ 1
  · rw [if_pos hc, if_pos hc]
    simp
  · rw [if_neg hc, if_neg hc]
    simp

/-- Unfolding of the specification pairing at a cons head. -/
theorem specUpdatedPairs_cons (p c : ℚ) (ps cs : List ℚ) :
    specUpdatedPairs (p :: ps) (c :: cs) =
      (if 1/2 ≤ |c - p| ∧ 1 ≤ (if p = 0 then (100 : ℚ) else |c - p| / p * 100) then
        [{ previousAmount := p, currentAmount := c
           deltaPercent := round2 (if p = 0 then (100 : ℚ) else |c - p| / p * 100) }]
      else []) ++ specUpdatedPairs ps cs := by
  simp only [specUpdatedPairs, List.zip_cons_cons, List.filterMap_cons]
  by_cases hc : 1/2 ≤ |c - p| ∧ 1 ≤ (if p = 0 then (100 : ℚ) else |c - p| / p * 100)
  · rw [if_pos hc, if_pos hc]
    simp
  · rw [if_neg hc, if_neg hc]
    simp

/-- C5: within a bucket, the positional pairs the code records as updated are
exactly the specification's: a doubly-inhabited index is recorded iff the
absolute delta is at least 0.50 and the percent delta
(`|current − previous| / previous · 100`, treated as 100 when the previous
amount is 0) is at least 1; pairs below either threshold produce no entry.
Consequently every bucket change emitted by `createBucketChange` carries
exactly those pairs. -/
theorem createBucketChange_updated_pairs (key : JSStr)
    (previousAmounts currentAmounts : List ℚ)
    (hnonneg : ∀ p ∈ previousAmounts, 0 ≤ p) :
    updatedAmountsOf previousAmounts currentAmounts =
        specUpdatedPairs previousAmounts currentAmounts ∧
      (∀ change, createBucketChange key previousAmounts currentAmounts = some change →
        change.updatedAmounts = specUpdatedPairs previousAmounts currentAmounts) := by
  have hmain : ∀ (prev cur : List ℚ), (∀ p ∈ prev, 0 ≤ p) →
      updatedAmountsOf prev cur = specUpdatedPairs prev cur := by
    intro prev
    induction prev with
    | nil =>
      intro cur _
      rw [updatedAmountsOf_nil_left, specUpdatedPairs]
      simp
    | cons p ps ih =>
      intro cur hnn
      cases cur with
      | nil =>
        rw [updatedAmountsOf_nil_right, specUpdatedPairs]
        simp
      | cons c cs =>
        rw [updatedAmountsOf_cons, specUpdatedPairs_cons,
          ih cs (fun q hq => hnn q (List.mem_cons_of_mem p hq))]
        have hp : 0 ≤ p := hnn p (List.mem_cons_self p ps)
        have hdp : deltaPercentOf p c = (if p = 0 then (100 : ℚ) else |c - p| / p * 100) := by
          rw [deltaPercentOf]
          rcases lt_or_eq_of_le hp with hlt | heq
          · rw [if_pos hlt, if_neg (ne_of_gt hlt)]
          · rw [if_neg (by rw [← heq]; exact lt_irrefl 0), if_pos heq.symm]
        rw [hdp]
  refine ⟨hmain previousAmounts currentAmounts hnonneg, ?_⟩
  intro change hchange
  rw [createBucketChange] at hchange
  split at hchange
  · exact absurd hchange (by simp)
  · simp only [Option.some.injEq] at hchange
    rw [← hchange]
    exact hmain previousAmounts currentAmounts hnonneg

/-- C5 witness: `(20, 100)` against `(40, 100.6)` — the first pair crosses
both thresholds (delta 20, 100 %), the second fails the percent threshold
(0.6 %), so exactly one updated pair is recorded. -/
theorem createBucketChange_updated_pairs_witness :
    (∀ p ∈ [(20 : ℚ), 100], 0 ≤ p) ∧
      updatedAmountsOf [(20 : ℚ), 100] [40, 100.6] =
        specUpdatedPairs [(20 : ℚ), 100] [40, 100.6] ∧
      specUpdatedPairs [(20 : ℚ), 100] [40, 100.6] =
        [{ previousAmount := 20, currentAmount := 40, deltaPercent := 100 }] := by
  have hnn : ∀ p ∈ [(20 : ℚ), 100], 0 ≤ p := by
    intro p hp
    simp only [List.mem_cons, List.not_mem_nil, or_false] at hp
    rcases hp with rfl | rfl <;> norm_num
  refine ⟨hnn,
    (createBucketChange_updated_pairs [] [(20 : ℚ), 100] [40, 100.6] hnn).1, ?_⟩
  rw [specUpdatedPairs_cons, specUpdatedPairs_cons]
  norm_num [specUpdatedPairs, round2, absRatIte]

/-- `takeWhile` passes over a fully-satisfying block. -/
theorem takeWhile_append_of_all {α : Type} (p : α → Bool) (xs ys : List α)
    (h : ∀ x ∈ xs, p x = true) :
    (xs ++ ys).takeWhile p = xs ++ ys.takeWhile p := by
  induction xs with
  | nil => simp
  | cons x xs ih =>
    simp only [List.cons_append, List.takeWhile_cons,
      h x (List.mem_cons_self x xs), ih (fun y hy => h y (List.mem_cons_of_mem x hy))]
    simp

/-- Digit code points are not the comma. -/
theorem digit_ne_comma {c : Nat} (h : isDigitCp c = true) : (c == 44) = false := by
  rw [isDigitCp] at h
  simp only [Bool.and_eq_true, decide_eq_true_eq] at h
  simp only [beq_eq_false_iff_ne, ne_eq]
  omega

/-- Comma-prefixed digit groups lose exactly their commas under the comma
filter. -/
theorem groups_filter_comma (gs : List JSStr) :
    gs.all (fun g => g.length == 3 && g.all isDigitCp) = true →
      (gs.foldr (fun g acc => 44 :: g ++ acc) []).filter (fun c => !(c == 44)) =
        gs.foldr (fun g acc => g ++ acc) [] := by
  induction gs with
  | nil => intro _; simp
  | cons g gs ih =>
    intro hgs
    rw [List.all_eq_true] at hgs
    have hg := hgs g (List.mem_cons_self g gs)
    simp only [Bool.and_eq_true, List.all_eq_true] at hg
    have hgKeep : g.filter (fun c => !(c == 44)) = g := by
      rw [List.filter_eq_self]
      intro a ha
      simp [digit_ne_comma (hg.2 a ha)]
    have ihg := ih (by
      rw [List.all_eq_true]
      intro g' hg'
      exact hgs g' (List.mem_cons_of_mem g hg'))
    simp only [List.foldr_cons, List.filter_cons, List.filter_append, hgKeep, ihg]
    simp

/-- The concatenation of all-digit groups is all digits. -/
theorem groups_join_digits (gs : List JSStr) :
    gs.all (fun g => g.length == 3 && g.all isDigitCp) = true →
      ∀ x ∈ gs.foldr (fun g acc => g ++ acc) [], isDigitCp x = true := by
  induction gs with
  | nil =>
    intro _ x hx
    simp at hx
  | cons g gs ih =>
    intro hgs x hx
    rw [List.all_eq_true] at hgs
    simp only [List.foldr_cons] at hx
    rcases List.mem_append.mp hx with hx' | hx'
    · have hg := hgs g (List.mem_cons_self g gs)
      simp only [Bool.and_eq_true, List.all_eq_true] at hg
      exact hg.2 x hx'
    · refine ih ?_ x hx'
      rw [List.all_eq_true]
      intro g' hg'
      exact hgs g' (List.mem_cons_of_mem g hg')

/-- Comma removal on a rendered amount token yields the digits and the
decimal part. -/
theorem render_filter_comma (t : AmountToken) (hwf : t.wf = true) :
    t.render.filter (fun c => !(c == 44)) =
      (t.lead ++ t.groups.foldr (fun g acc => g ++ acc) []) ++
        (match t.frac with
          | none => []
          | some f => 46 :: f) := by
  have hwf' := hwf
  rw [AmountToken.wf] at hwf'
  simp only [Bool.and_eq_true] at hwf'
  have hlead := hwf'.1.1.2
  have hgroups := hwf'.1.2
  have hfrac := hwf'.2
  rw [AmountToken.render, List.filter_append, List.filter_append]
  have hleadKeep : t.lead.filter (fun c => !(c == 44)) = t.lead := by
    rw [List.filter_eq_self]
    intro a ha
    rw [List.all_eq_true] at hlead
    simp [digit_ne_comma (hlead a ha)]
  have hfracKeep :
      (match t.frac with
        | none => ([] : JSStr)
        | some f => 46 :: f).filter (fun c => !(c == 44)) =
        (match t.frac with
          | none => ([] : JSStr)
          | some f => 46 :: f) := by
    cases hf : t.frac with
    | none => simp
    | some f =>
      rw [hf] at hfrac
      simp only [Bool.and_eq_true, List.all_eq_true] at hfrac
      rw [List.filter_cons]
      have hkeep : f.filter (fun c => !(c == 44)) = f := by
        rw [List.filter_eq_self]
        intro a ha
        simp [digit_ne_comma (hfrac.2 a ha)]
      simp [hkeep]
  rw [hleadKeep, groups_filter_comma t.groups hgroups, hfracKeep]

/-- Parsing the comma-free text of a well-formed amount token yields its
value. -/
theorem parse_render_value (t : AmountToken) (hwf : t.wf = true) :
    jsParseFloatNum (t.render.filter (fun c => !(c == 44))) = t.value := by
  have hwf' := hwf
  rw [AmountToken.wf] at hwf'
  simp only [Bool.and_eq_true] at hwf'
  have hlead := hwf'.1.1.2
  have hgroups := hwf'.1.2
  have hfrac := hwf'.2
  rw [render_filter_comma t hwf]
  have hdigits :
      ∀ x ∈ t.lead ++ t.groups.foldr (fun g acc => g ++ acc) [], isDigitCp x = true := by
    intro x hx
    rcases List.mem_append.mp hx with hx | hx
    · rw [List.all_eq_true] at hlead
      exact hlead x hx
    · exact groups_join_digits t.groups hgroups x hx
  rw [jsParseFloatNum]
  cases hf : t.frac with
  | none =>
    simp only [hf]
    rw [List.append_nil, List.takeWhile_eq_self_iff.mpr hdigits]
    rw [AmountToken.value, hf]
    simp [natOfDigitsJ]
  | some f =>
    simp only [hf]
    rw [takeWhile_append_of_all _ _ _ hdigits]
    have h46 : (46 :: f).takeWhile isDigitCp = [] := by
      rw [List.takeWhile_cons]
      norm_num [isDigitCp]
    rw [h46, List.append_nil, List.drop_left, List.drop_one, List.tail_cons]
    rw [hf] at hfrac
    simp only [Bool.and_eq_true, List.all_eq_true] at hfrac
    rw [List.takeWhile_eq_self_iff.mpr hfrac.2]
    rw [AmountToken.value, hf]

/-- C9: a bare numeric token — no ISO code and no currency symbol — is still
captured by the price-mention scan whenever its value is positive, with the
currency defaulting to `USD` (via `mapCurrency("$")`) and the period to
`unknown` (via `mapPeriod(undefined)`). -/
theorem bare_numeric_token_captured (t : AmountToken) (hwf : t.wf = true)
    (hpos : 0 < t.value) :
    priceMentionOfMatch
        { codeToken := none, symbolToken := none, amountToken := t.render, periodToken := none } =
      some { amount := t.value, currency := jstr "USD", period := .unknown } := by
  rw [priceMentionOfMatch]
  simp only [parse_render_value t hwf]
  rw [if_pos hpos]
  have hcur : mapCurrency (jstr "$") = jstr "USD" := by decide
  have hper : mapPeriod none = PricePeriod.unknown := rfl
  simp [hcur, hper, Option.getD]

/-- C9 witness: the bare token `1,234.56` is captured as
`{amount: 1234.56, currency: "USD", period: "unknown"}`. -/
theorem bare_numeric_token_captured_witness :
    (AmountToken.wf { lead := [49], groups := [[50, 51, 52]], frac := some [53, 54] }) = true ∧
      (0 : ℚ) < AmountToken.value { lead := [49], groups := [[50, 51, 52]], frac := some [53, 54] } ∧
      priceMentionOfMatch
          { codeToken := none, symbolToken := none
            amountToken :=
              AmountToken.render { lead := [49], groups := [[50, 51, 52]], frac := some [53, 54] }
            periodToken := none } =
        some
          { amount :=
              AmountToken.value { lead := [49], groups := [[50, 51, 52]], frac := some [53, 54] }
            currency := jstr "USD", period := .unknown } := by
  have hwf : (AmountToken.wf { lead := [49], groups := [[50, 51, 52]], frac := some [53, 54] }) =
      true := by decide
  have hpos : (0 : ℚ) <
      AmountToken.value { lead := [49], groups := [[50, 51, 52]], frac := some [53, 54] } := by
    norm_num [AmountToken.value, natOfDigitsJ]
  exact ⟨hwf, hpos, bare_numeric_token_captured _ hwf hpos⟩

/-- C1: when extraction succeeds and the stored latest content hash equals
the extraction's content hash, `processCompany` short-circuits at the hash
gate: no snapshot, no diff, no insight, the item result is `ok` with
`skippedByHash`, and the finalizer schedules the success delay. -/
theorem runner_hash_gate_short_circuits (env : RunnerEnv) (ex : CrawlExtractionOk)
    (url : String) (user : EntitlementUserLike) (stored : String)
    (hsrc : resolvedSourceUrl env = some url)
    (huser : env.user = some user)
    (haccess : (resolveEntitlements env.cfg env.stripePlans user env.now).hasAccess = true)
    (hex : env.extraction = .ok ex)
    (hstored : env.company.latestContentHash = some stored)
    (hne : stored ≠ "")
    (heq : stored = ex.contentHash) :
    (processCompany env).result =
        { status := .ok, changed := false, snapshotCreated := false, diffCreated := false
          insightCreated := false, skippedByHash := true, reason := none } ∧
      (processCompany env).createdDiff = none ∧
      (processCompany env).createdInsight = none ∧
      (processCompany env).finalize.lastCrawlStatus = .ok ∧
      (processCompany env).finalize.crawlLeaseUntil = none ∧
      (processCompany env).finalize.nextCrawlAt = env.now + env.delays.successMs := by
  subst heq
  rw [processCompany, hsrc, huser, hex, hstored]
  simp only [haccess, Bool.not_true, Bool.false_eq_true, if_false]
  simp [hne, finalizeCompany, statusToNextDelayMs]

/-- C1 witness: the hash gate fires on a concrete environment whose stored
hash `h1` matches the extraction. -/
theorem runner_hash_gate_short_circuits_witness :
    (processCompany c1Env).result =
        { status := .ok, changed := false, snapshotCreated := false, diffCreated := false
          insightCreated := false, skippedByHash := true, reason := none } ∧
      (processCompany c1Env).createdDiff = none ∧
      (processCompany c1Env).createdInsight = none ∧
      (processCompany c1Env).finalize.lastCrawlStatus = .ok ∧
      (processCompany c1Env).finalize.crawlLeaseUntil = none ∧
      (processCompany c1Env).finalize.nextCrawlAt = c1Env.now + c1Env.delays.successMs :=
  runner_hash_gate_short_circuits c1Env
    { contentHash := "h1"
      pricingPayload := samplePayload [{ amount := 19, currency := [85, 83, 68], period := .month }]
      confidence := 9/10
      isVerified := true }
    "https://acme.example/pricing" sampleUser "h1" rfl rfl rfl rfl rfl (by decide) rfl

/-- The insight builder emits a create-input only behind a present severity
gate and a passing `canGenerateInsight` check, and that input echoes the
diff's severity. -/
theorem buildInsight_createInput_inv (cfg : EntitlementsConfig)
    (stripePlans : List (String × PlanTier)) (input : InsightBuildInput)
    (ci : InsightCreateInput) :
    (buildInsightFromDiff cfg stripePlans input).createInput = some ci →
      (buildInsightFromDiff cfg stripePlans input).shouldCreate = true ∧
        (resolveEntitlements cfg stripePlans input.user input.now).insightSeverityGate ≠ none ∧
        canGenerateInsight (resolveEntitlements cfg stripePlans input.user input.now)
          input.severity = true ∧
        ci.recommendation.severity = input.severity := by
  simp only [buildInsightFromDiff]
  split
  · simp
  · rename_i gate hgate
    split_ifs with hcan
    · simp
    all_goals
      intro h
      simp only [Option.some.injEq] at h
      simp only [Bool.not_eq_true', Bool.not_eq_false] at hcan
      refine ⟨rfl, by simp [hgate], hcan, ?_⟩
      rw [← h]

/-- C3: insights are gated by the owner's entitlements at generation time:
`buildInsightFromDiff` refuses whenever the resolved entitlements carry no
severity gate or `canGenerateInsight` rejects the diff's severity, and
whenever the runner records an insight, the diff severity it echoes is in
the owning user's allowed-severity set as resolved at that moment. -/
theorem insight_respects_severity_gate :
    (∀ (cfg : EntitlementsConfig) (stripePlans : List (String × PlanTier))
        (input : InsightBuildInput),
      (resolveEntitlements cfg stripePlans input.user input.now).insightSeverityGate = none →
        (buildInsightFromDiff cfg stripePlans input).shouldCreate = false) ∧
      (∀ (cfg : EntitlementsConfig) (stripePlans : List (String × PlanTier))
          (input : InsightBuildInput),
        canGenerateInsight (resolveEntitlements cfg stripePlans input.user input.now)
            input.severity = false →
          (buildInsightFromDiff cfg stripePlans input).shouldCreate = false) ∧
      (∀ (env : RunnerEnv) (ins : InsightCreateInput),
        (processCompany env).createdInsight = some ins →
          ∃ user, env.user = some user ∧
            (resolveEntitlements env.cfg env.stripePlans user env.now).insightSeverityGate ≠
              none ∧
            canGenerateInsight (resolveEntitlements env.cfg env.stripePlans user env.now)
              ins.recommendation.severity = true ∧
            ins.recommendation.severity ∈
              (resolveEntitlements env.cfg env.stripePlans user env.now).allowedInsightSeverities) := by
  refine ⟨?_, ?_, ?_⟩
  · intro cfg stripePlans input hgate
    simp [buildInsightFromDiff, hgate]
  · intro cfg stripePlans input hcan
    simp only [buildInsightFromDiff]
    split
    · rfl
    · simp [hcan]
  · intro env ins h
    simp only [processCompany] at h
    split at h
    · simp at h
    · split at h
      · simp at h
      · rename_i user huser
        split at h
        · simp at h
        · split at h
          · simp at h
          · rename_i ex hex
            split at h
            · simp at h
            · split at h
              · simp at h
              · rename_i diff hdiff
                simp only [] at h
                split at h
                · rename_i ci hci
                  split at h
                  · rename_i hshould
                    simp only [Option.some.injEq] at h
                    have hinv := buildInsight_createInput_inv env.cfg env.stripePlans
                      { user := user, userId := env.userId, companyId := env.companyId
                        diffId := env.diffId, severity := diff.severity
                        verificationState := diff.verificationState
                        normalizedDiff := diff.normalizedDiff, now := env.now } ci hci
                    refine ⟨user, huser, hinv.2.1, ?_, ?_⟩
                    · rw [← h]
                      rw [hinv.2.2.2]
                      exact hinv.2.2.1
                    · have hc := hinv.2.2.1
                      rw [canGenerateInsight, Bool.and_eq_true] at hc
                      rw [← h, hinv.2.2.2]
                      exact List.mem_of_elem_eq_true hc.2
                  · simp at h
                · simp at h

/-- Code points of the period literal `"day"`. -/
theorem jstrDay : jstr "day" = [100, 97, 121] := by decide

/-- Code points of the period literal `"week"`. -/
theorem jstrWeek : jstr "week" = [119, 101, 101, 107] := by decide

/-- Code points of the period literal `"month"`. -/
theorem jstrMonth : jstr "month" = [109, 111, 110, 116, 104] := by decide

/-- Code points of the period literal `"year"`. -/
theorem jstrYear : jstr "year" = [121, 101, 97, 114] := by decide

/-- Code points of the period literal `"one_time"`. -/
theorem jstrOneTime : jstr "one_time" = [111, 110, 101, 95, 116, 105, 109, 101] := by decide

/-- Sorting a singleton is the identity. -/
theorem mergeSort_single {α : Type} (le : α → α → Bool) (a : α) :
    List.mergeSort [a] le = [a] :=
  List.mergeSort_of_sorted (List.pairwise_singleton _ a)

/-- Rounding fixes the integers used in the `c3Env` evaluation. -/
theorem round2_int_vals :
    round2 20 = 20 ∧ round2 40 = 40 ∧ round2 100 = 100 := by
  norm_num [round2]

/-- The previous payload of `c3Env` is already canonical. -/
theorem c3_canonical_prev :
    canonicalizePricingPayload
        (samplePayload [{ amount := 20, currency := [85, 83, 68], period := .month }]) =
      samplePayload [{ amount := 20, currency := [85, 83, 68], period := .month }] := by
  simp [canonicalizePricingPayload, samplePayload, uniqueStrings, uniquePrices, dedupByKey,
    storedPrice, toUpperJ, upperCp, mergeSort_single, round2_int_vals.1, List.mergeSort_nil]

/-- The bucket maps of the `c3Env` payloads. -/
theorem c3_buckets_eval :
    toBucketMap (samplePayload [{ amount := 20, currency := [85, 83, 68], period := .month }]) =
        [([85, 83, 68, 124, 109, 111, 110, 116, 104], [20])] ∧
      toBucketMap (samplePayload [{ amount := 40, currency := [85, 83, 68], period := .month }]) =
        [([85, 83, 68, 124, 109, 111, 110, 116, 104], [40])] := by
  constructor <;>
    norm_num [toBucketMap, samplePayload, bucketKeyJ, toUpperJ, upperCp, periodKeyJ, jstrMonth,
      mapGetJ, mapSetJ, mergeSort_single, round2_int_vals.1, round2_int_vals.2.1, List.foldl]

/-- The bucket change computed for the `c3Env` key. -/
theorem c3_bucket_change_eval :
    createBucketChange [85, 83, 68, 124, 109, 111, 110, 116, 104] [20] [40] = some c3Bucket := by
  have hrange : List.range 1 = [0] := by decide
  norm_num [createBucketChange, splitSepJ, periodOfKeyJ, jstrDay, jstrWeek, jstrMonth, jstrYear,
    jstrOneTime, addedAmountsOf, removedAmountsOf, updatedAmountsOf_cons,
    updatedAmountsOf_nil_left, deltaPercentOf, round2_int_vals.2.2, absRatIte, hrange, c3Bucket]

/-- The severity assigned to the `c3Env` bucket change. -/
theorem c3_severity_eval : determineSeverity [c3Bucket] false = .high := by
  norm_num [determineSeverity, maxDeltaPercent, totalAdded, totalRemoved, c3Bucket, List.foldl]

/-- The diff computed between the `c3Env` payloads. -/
theorem c3_diff_eval :
    generatePricingDiff
        (samplePayload [{ amount := 20, currency := [85, 83, 68], period := .month }])
        (samplePayload [{ amount := 40, currency := [85, 83, 68], period := .month }]) true =
      some c3Diff := by
  rw [generatePricingDiff, c3_buckets_eval.1, c3_buckets_eval.2]
  norm_num [samplePayload, dedupByKey, mapGetJ, List.find?, List.filterMap_cons,
    c3_bucket_change_eval, sortBucketChanges, mergeSort_single, c3_severity_eval, c3Diff,
    c3NDiff]

set_option maxRecDepth 2000 in
/-- The insight built for the `c3Env` diff. -/
theorem c3_insight_eval :
    buildInsightFromDiff sampleCfg []
        { user := sampleUser, userId := 1, companyId := 2, diffId := 3
          severity := .high, verificationState := .verified
          normalizedDiff := c3NDiff, now := 1000 } =
      { shouldCreate := true, reason := none, createInput := some c3Ins } := by
  have hgate : (resolveEntitlements sampleCfg [] sampleUser 1000).insightSeverityGate =
      some .high_only := by decide
  have hcan : canGenerateInsight (resolveEntitlements sampleCfg [] sampleUser 1000)
      DiffSeverity.high = true := by decide
  simp only [buildInsightFromDiff, hgate, hcan]
  simp only [Bool.not_true, Bool.false_eq_true, if_false]
  norm_num [getPriceChangeSummary, c3NDiff, c3Bucket, List.foldl]
  have hnd : natDigitsJ 1 = [49] := by simp [natDigitsJ]
  norm_num [createActionItems, getRiskLabel, severityStrJ, c3Ins, hnd]
  decide

/-- The insight record the runner writes for `c3Env`. -/
theorem c3_process_eval : (processCompany c3Env).createdInsight = some c3Ins := by
  have hne2 : ¬(("h1" : String) = "h2") := by decide
  have haccess : (resolveEntitlements sampleCfg [] sampleUser 1000).hasAccess = true := by decide
  rw [processCompany]
  simp only [c3Env, resolvedSourceUrl, toNormalizedPayload, Option.map, haccess, Bool.not_true,
    Bool.false_eq_true, if_false, hne2, Bool.and_false, c3_canonical_prev, c3_diff_eval]
  simp only [c3Diff, c3_insight_eval]
  simp

/-- C3 witness: a user with no access yields no gate and no insight; a
starter-gated owner cannot take a `low` diff; and on `c3Env` the runner's
written insight carries severity `high`, inside the owner's allowed set. -/
theorem insight_respects_severity_gate_witness :
    (buildInsightFromDiff sampleCfg []
        { user :=
            { hasAccess := false, priceId := none, trialStatus := .not_started
              trialStartedAt := none, trialEndsAt := none }
          userId := 0, companyId := 0, diffId := 0, severity := .high
          verificationState := .verified, normalizedDiff := c3NDiff, now := 0 }).shouldCreate =
        false ∧
      (buildInsightFromDiff sampleCfg []
          { user := sampleUser, userId := 0, companyId := 0, diffId := 0, severity := .low
            verificationState := .verified, normalizedDiff := c3NDiff, now := 0 }).shouldCreate =
        false ∧
      (processCompany c3Env).createdInsight = some c3Ins ∧
      (∃ user, c3Env.user = some user ∧
        (resolveEntitlements c3Env.cfg c3Env.stripePlans user c3Env.now).insightSeverityGate ≠
          none ∧
        canGenerateInsight (resolveEntitlements c3Env.cfg c3Env.stripePlans user c3Env.now)
          c3Ins.recommendation.severity = true ∧
        c3Ins.recommendation.severity ∈
          (resolveEntitlements c3Env.cfg c3Env.stripePlans user c3Env.now).allowedInsightSeverities) :=
  ⟨insight_respects_severity_gate.1 sampleCfg []
      { user :=
          { hasAccess := false, priceId := none, trialStatus := .not_started
            trialStartedAt := none, trialEndsAt := none }
        userId := 0, companyId := 0, diffId := 0, severity := .high
        verificationState := .verified, normalizedDiff := c3NDiff, now := 0 } (by decide),
    insight_respects_severity_gate.2.1 sampleCfg []
      { user := sampleUser, userId := 0, companyId := 0, diffId := 0, severity := .low
        verificationState := .verified, normalizedDiff := c3NDiff, now := 0 } (by decide),
    c3_process_eval,
    insight_respects_severity_gate.2.2 c3Env c3Ins c3_process_eval⟩

/-- `dropWhile` passes over a fully-satisfying block. -/
theorem dropWhile_append_of_all {α : Type} (p : α → Bool) (xs ys : List α)
    (h : ∀ x ∈ xs, p x = true) :
    (xs ++ ys).dropWhile p = ys.dropWhile p := by
  induction xs with
  | nil => simp
  | cons x xs ih =>
    simp only [List.cons_append, List.dropWhile_cons,
      h x (List.mem_cons_self x xs), if_true]
    exact ih (fun y hy => h y (List.mem_cons_of_mem x hy))

/-- A nonempty whitespace-free string is a single word. -/
theorem wordsJ_of_word (w : JSStr) (hne : w ≠ [])
    (hw : ∀ c ∈ w, isJsSpaceCp c = false) : wordsJ w = [w] := by
  cases w with
  | nil => exact absurd rfl hne
  | cons c cs =>
    rw [wordsJ]
    rw [if_neg (by simp [hw c (List.mem_cons_self c cs)])]
    have htake : cs.takeWhile (fun d => !isJsSpaceCp d) = cs :=
      List.takeWhile_eq_self_iff.mpr (fun d hd => by
        simp [hw d (List.mem_cons_of_mem c hd)])
    have hdrop : cs.dropWhile (fun d => !isJsSpaceCp d) = [] :=
      List.dropWhile_eq_nil_iff.mpr (fun d hd => by
        simp [hw d (List.mem_cons_of_mem c hd)])
    rw [htake, hdrop, wordsJ]

/-- A word followed by a space splits off as the first word. -/
theorem wordsJ_word_space (w : JSStr) (hne : w ≠ [])
    (hw : ∀ c ∈ w, isJsSpaceCp c = false) (s : JSStr) :
    wordsJ (w ++ 32 :: s) = w :: wordsJ s := by
  cases w with
  | nil => exact absurd rfl hne
  | cons c cs =>
    rw [List.cons_append, wordsJ]
    rw [if_neg (by simp [hw c (List.mem_cons_self c cs)])]
    have hall : ∀ d ∈ cs, (fun d => !isJsSpaceCp d) d = true := fun d hd => by
      simp [hw d (List.mem_cons_of_mem c hd)]
    rw [takeWhile_append_of_all _ cs (32 :: s) hall,
      dropWhile_append_of_all _ cs (32 :: s) hall]
    rw [List.takeWhile_cons, List.dropWhile_cons]
    norm_num [isJsSpaceCp]
    rw [wordsJ]
    simp [isJsSpaceCp]

/-- Joining good words and re-splitting them is the identity. -/
theorem wordsJ_joinWordsJ (ws : List JSStr)
    (h : ∀ w ∈ ws, w ≠ [] ∧ ∀ c ∈ w, isJsSpaceCp c = false) :
    wordsJ (joinWordsJ ws) = ws := by
  induction ws with
  | nil => rw [joinWordsJ, wordsJ]
  | cons w ws ih =>
    have hw := h w (List.mem_cons_self w ws)
    cases ws with
    | nil =>
      rw [joinWordsJ]
      exact wordsJ_of_word w hw.1 hw.2
    | cons w' ws' =>
      rw [joinWordsJ, wordsJ_word_space w hw.1 hw.2]
      · rw [ih (fun u hu => h u (List.mem_cons_of_mem w hu))]
      · simp

/-- Every word produced by `wordsJ` is nonempty and whitespace-free. -/
theorem wordsJ_mem_good (s : JSStr) :
    ∀ w ∈ wordsJ s, w ≠ [] ∧ ∀ c ∈ w, isJsSpaceCp c = false := by
  induction s using wordsJ.induct with
  | case1 =>
    intro w hw
    rw [wordsJ] at hw
    simp at hw
  | case2 c cs hsp ih =>
    intro w hw
    rw [wordsJ, if_pos hsp] at hw
    exact ih w hw
  | case3 c cs hsp ih =>
    intro w hw
    rw [wordsJ, if_neg hsp] at hw
    rcases List.mem_cons.mp hw with rfl | hw'
    · refine ⟨by simp, ?_⟩
      intro d hd
      rcases List.mem_cons.mp hd with rfl | hd'
      · simpa using hsp
      · have := List.mem_takeWhile_imp hd'
        simpa using this
    · exact ih w hw'

/-- `normalizeWhitespace` is idempotent. -/
theorem normalizeWhitespace_idem (s : JSStr) :
    normalizeWhitespace (normalizeWhitespace s) = normalizeWhitespace s := by
  rw [normalizeWhitespace, normalizeWhitespace,
    wordsJ_joinWordsJ (wordsJ s) (wordsJ_mem_good s)]

/-- Lowercasing does not change whitespace-ness. -/
theorem isJsSpaceCp_lowerCp (c : Nat) : isJsSpaceCp (lowerCp c) = isJsSpaceCp c := by
  rw [lowerCp]
  split_ifs with h
  · rw [Bool.eq_iff_iff]
    simp only [isJsSpaceCp, Bool.or_eq_true, beq_iff_eq]
    omega
  · rfl

/-- Code-point lowercasing is idempotent. -/
theorem lowerCp_idem (c : Nat) : lowerCp (lowerCp c) = lowerCp c := by
  simp only [lowerCp]
  split_ifs <;> omega

/-- Code-point uppercasing is idempotent. -/
theorem upperCp_idem (c : Nat) : upperCp (upperCp c) = upperCp c := by
  simp only [upperCp]
  split_ifs <;> omega

/-- String lowercasing is idempotent. -/
theorem toLowerJ_idem (s : JSStr) : toLowerJ (toLowerJ s) = toLowerJ s := by
  simp only [toLowerJ, List.map_map]
  exact List.map_congr_left (fun c _ => lowerCp_idem c)

/-- String uppercasing is idempotent. -/
theorem toUpperJ_idem (s : JSStr) : toUpperJ (toUpperJ s) = toUpperJ s := by
  simp only [toUpperJ, List.map_map]
  exact List.map_congr_left (fun c _ => upperCp_idem c)

/-- Unfolding: the empty join. -/
theorem joinWordsJ_nil : joinWordsJ [] = [] := rfl

/-- Unfolding: a single-word join. -/
theorem joinWordsJ_single (a : JSStr) : joinWordsJ [a] = a := rfl

/-- Unfolding: a multi-word join. -/
theorem joinWordsJ_cons2 (a b : JSStr) (l : List JSStr) :
    joinWordsJ (a :: b :: l) = a ++ 32 :: joinWordsJ (b :: l) := rfl

/-- Word decomposition commutes with lowercasing. -/
theorem wordsJ_toLowerJ (s : JSStr) : wordsJ (toLowerJ s) = (wordsJ s).map toLowerJ := by
  simp only [toLowerJ]
  induction s using wordsJ.induct with
  | case1 => simp [wordsJ]
  | case2 c cs hsp ih =>
    rw [List.map_cons, wordsJ]
    rw [if_pos (by rw [isJsSpaceCp_lowerCp]; exact hsp)]
    rw [ih, wordsJ, if_pos hsp]
  | case3 c cs hsp ih =>
    rw [List.map_cons, wordsJ]
    rw [if_neg (by rw [isJsSpaceCp_lowerCp]; exact hsp)]
    have hpred : ((fun d => !isJsSpaceCp d) ∘ lowerCp) = fun d => !isJsSpaceCp d := by
      funext d
      simp [isJsSpaceCp_lowerCp]
    rw [List.takeWhile_map, List.dropWhile_map, hpred, ih]
    rw [wordsJ, if_neg hsp]
    simp [toLowerJ]

/-- Joining commutes with lowercasing. -/
theorem joinWordsJ_toLowerJ (ws : List JSStr) :
    joinWordsJ (ws.map toLowerJ) = toLowerJ (joinWordsJ ws) := by
  induction ws with
  | nil => simp [joinWordsJ_nil, toLowerJ]
  | cons w ws ih =>
    cases ws with
    | nil => rw [List.map_cons, List.map_nil, joinWordsJ_single, joinWordsJ_single]
    | cons w' ws' =>
      rw [List.map_cons, List.map_cons, joinWordsJ_cons2, ← List.map_cons, ih,
        joinWordsJ_cons2]
      simp only [toLowerJ, List.map_append, List.map_cons]
      rfl

/-- Whitespace normalization commutes with lowercasing. -/
theorem normalizeWhitespace_toLowerJ (s : JSStr) :
    normalizeWhitespace (toLowerJ s) = toLowerJ (normalizeWhitespace s) := by
  rw [normalizeWhitespace, normalizeWhitespace, wordsJ_toLowerJ, joinWordsJ_toLowerJ]

/-- Keyed deduplication only returns input elements. -/
theorem mem_dedupByKey {α κ : Type} [DecidableEq κ] (key : α → κ)
    (seen : List κ) (l : List α) (x : α) (hx : x ∈ dedupByKey key seen l) : x ∈ l := by
  induction l generalizing seen with
  | nil => simp [dedupByKey] at hx
  | cons y ys ih =>
    rw [dedupByKey] at hx
    split_ifs at hx with h
    · exact List.mem_cons_of_mem _ (ih _ hx)
    · rcases List.mem_cons.mp hx with h1 | h1
      · exact h1 ▸ List.mem_cons_self _ _
      · exact List.mem_cons_of_mem _ (ih _ h1)

/-- Keyed deduplication never returns an element whose key was already seen. -/
theorem dedupByKey_key_not_seen {α κ : Type} [DecidableEq κ] (key : α → κ)
    (seen : List κ) (l : List α) (x : α) (hx : x ∈ dedupByKey key seen l) :
    key x ∉ seen := by
  induction l generalizing seen with
  | nil => simp [dedupByKey] at hx
  | cons y ys ih =>
    rw [dedupByKey] at hx
    split_ifs at hx with h
    · exact ih _ hx
    · rcases List.mem_cons.mp hx with h1 | h1
      · exact h1 ▸ h
      · intro hxs
        exact ih _ h1 (List.mem_cons_of_mem _ hxs)

/-- The keys of a keyed deduplication are pairwise distinct. -/
theorem dedupByKey_pairwise {α κ : Type} [DecidableEq κ] (key : α → κ)
    (seen : List κ) (l : List α) :
    (dedupByKey key seen l).Pairwise (fun a b => key a ≠ key b) := by
  induction l generalizing seen with
  | nil => simp [dedupByKey]
  | cons y ys ih =>
    rw [dedupByKey]
    split_ifs with h
    · exact ih seen
    · refine List.Pairwise.cons ?_ (ih _)
      intro b hb heq
      exact dedupByKey_key_not_seen key _ _ _ hb (heq ▸ List.mem_cons_self _ _)

/-- Keyed deduplication fixes a list whose keys are fresh and pairwise
distinct. -/
theorem dedupByKey_eq_self {α κ : Type} [DecidableEq κ] (key : α → κ)
    (seen : List κ) (l : List α) (hseen : ∀ x ∈ l, key x ∉ seen)
    (hpw : l.Pairwise (fun a b => key a ≠ key b)) : dedupByKey key seen l = l := by
  induction l generalizing seen with
  | nil => rfl
  | cons y ys ih =>
    rw [dedupByKey, if_neg (hseen y (List.mem_cons_self _ _))]
    rcases List.pairwise_cons.mp hpw with ⟨hhead, htail⟩
    refine congrArg (y :: ·) (ih _ ?_ htail)
    intro x hx
    rw [List.mem_cons]
    push_neg
    exact ⟨fun heq => hhead x hx heq.symm, hseen x (List.mem_cons_of_mem _ hx)⟩

/-- Code-point comparison of a string with itself. -/
theorem lexOrdJ_self (a : JSStr) : lexOrdJ a a = .eq := by
  induction a with
  | nil => rfl
  | cons c cs ih =>
    rw [lexOrdJ, if_neg (lt_irrefl c), if_neg (lt_irrefl c)]
    exact ih

/-- Code-point comparison returns `eq` exactly on equal strings. -/
theorem lexOrdJ_eq_iff (a b : JSStr) : lexOrdJ a b = .eq ↔ a = b := by
  induction a generalizing b with
  | nil => cases b <;> simp [lexOrdJ]
  | cons c cs ih =>
    cases b with
    | nil => simp [lexOrdJ]
    | cons d ds =>
      rw [lexOrdJ]
      split_ifs with h1 h2
      · refine iff_of_false (by simp) ?_
        intro h
        rw [List.cons.injEq] at h
        omega
      · refine iff_of_false (by simp) ?_
        intro h
        rw [List.cons.injEq] at h
        omega
      · have hcd : c = d := by omega
        subst hcd
        simp [ih]

/-- Code-point comparison is antisymmetric under argument swap. -/
theorem lexOrdJ_swap (a b : JSStr) : lexOrdJ b a = (lexOrdJ a b).swap := by
  induction a generalizing b with
  | nil => cases b <;> rfl
  | cons c cs ih =>
    cases b with
    | nil => rfl
    | cons d ds =>
      rw [lexOrdJ, lexOrdJ]
      rcases Nat.lt_trichotomy c d with h | h | h
      · rw [if_neg (by omega), if_pos h, if_pos h]
        rfl
      · subst h
        rw [if_neg (lt_irrefl c), if_neg (lt_irrefl c), if_neg (lt_irrefl c),
          if_neg (lt_irrefl c)]
        exact ih ds
      · rw [if_pos h, if_neg (by omega), if_pos h]
        rfl

/-- Unfolding the strict case of the code-point comparison. -/
theorem lexOrdJ_cons_lt_iff (x d : Nat) (xs ds : JSStr) :
    lexOrdJ (x :: xs) (d :: ds) = .lt ↔ x < d ∨ (x = d ∧ lexOrdJ xs ds = .lt) := by
  rw [lexOrdJ]
  split_ifs with h1 h2
  · exact iff_of_true rfl (Or.inl h1)
  · refine iff_of_false (by simp) ?_
    rintro (h | ⟨h, _⟩) <;> omega
  · have hxd : x = d := by omega
    subst hxd
    simp

/-- Strict code-point comparison is transitive. -/
theorem lexOrdJ_lt_trans (a b c : JSStr) (h1 : lexOrdJ a b = .lt)
    (h2 : lexOrdJ b c = .lt) : lexOrdJ a c = .lt := by
  induction a generalizing b c with
  | nil =>
    cases b with
    | nil => exact absurd h1 (by simp [lexOrdJ])
    | cons d ds =>
      cases c with
      | nil => exact absurd h2 (by simp [lexOrdJ])
      | cons e es => rfl
  | cons x xs ih =>
    cases b with
    | nil => exact absurd h1 (by simp [lexOrdJ])
    | cons d ds =>
      cases c with
      | nil => exact absurd h2 (by simp [lexOrdJ])
      | cons e es =>
        rw [lexOrdJ_cons_lt_iff] at h1 h2 ⊢
        rcases h1 with h1 | ⟨h1, t1⟩
        · rcases h2 with h2 | ⟨h2, _⟩
          · exact Or.inl (by omega)
          · exact Or.inl (by omega)
        · rcases h2 with h2 | ⟨h2, t2⟩
          · exact Or.inl (by omega)
          · exact Or.inr ⟨by omega, ih ds es t1 t2⟩

/-- The sort comparator relation, unfolded. -/
theorem lexLeJ_iff (a b : JSStr) : lexLeJ a b = true ↔ (lexOrdJ a b = .lt ∨ a = b) := by
  rw [lexLeJ, decide_eq_true_eq, ← lexOrdJ_eq_iff a b]
  cases h : lexOrdJ a b <;> simp

/-- The sort comparator relation is transitive. -/
theorem lexLeJ_trans (a b c : JSStr) (h1 : lexLeJ a b = true) (h2 : lexLeJ b c = true) :
    lexLeJ a c = true := by
  rw [lexLeJ_iff] at h1 h2 ⊢
  rcases h1 with h1 | rfl
  · rcases h2 with h2 | rfl
    · exact Or.inl (lexOrdJ_lt_trans _ _ _ h1 h2)
    · exact Or.inl h1
  · exact h2

/-- The sort comparator relation is total. -/
theorem lexLeJ_total (a b : JSStr) : (lexLeJ a b || lexLeJ b a) = true := by
  rw [Bool.or_eq_true, lexLeJ_iff, lexLeJ_iff]
  rcases hord : lexOrdJ a b with _ | _ | _
  · exact Or.inl (Or.inl rfl)
  · exact Or.inl (Or.inr ((lexOrdJ_eq_iff a b).mp hord))
  · refine Or.inr (Or.inl ?_)
    rw [lexOrdJ_swap, hord]
    rfl

/-- The period literal determines the period. -/
theorem periodKeyJ_inj (p q : PricePeriod) (h : periodKeyJ p = periodKeyJ q) : p = q := by
  cases p <;> cases q <;> first | rfl | exact absurd h (by decide)

/-- The price-point comparator relation, unfolded into the lexicographic
disjunction over currency, period and amount. -/
theorem pricePointLe_iff (a b : NormalizedPricePoint) :
    pricePointLe a b = true ↔
      lexOrdJ a.currency b.currency = .lt ∨
        (a.currency = b.currency ∧
          lexOrdJ (periodKeyJ a.period) (periodKeyJ b.period) = .lt) ∨
        (a.currency = b.currency ∧ a.period = b.period ∧ a.amount ≤ b.amount) := by
  rw [pricePointLe]
  split_ifs with h1 h2
  · rw [lexLeJ_iff]
    constructor
    · rintro (h | h)
      · exact Or.inl h
      · exact absurd h h1
    · rintro (h | ⟨h, _⟩ | ⟨h, _⟩)
      · exact Or.inl h
      · exact absurd h h1
      · exact absurd h h1
  · rw [not_not] at h1
    rw [lexLeJ_iff]
    constructor
    · rintro (h | h)
      · exact Or.inr (Or.inl ⟨h1, h⟩)
      · exact absurd (periodKeyJ_inj _ _ h) h2
    · rintro (h | ⟨_, h⟩ | ⟨_, h, _⟩)
      · rw [h1, lexOrdJ_self] at h
        cases h
      · exact Or.inl h
      · exact absurd h h2
  · rw [not_not] at h1 h2
    rw [decide_eq_true_eq]
    constructor
    · intro h
      exact Or.inr (Or.inr ⟨h1, h2, h⟩)
    · rintro (h | ⟨_, h⟩ | ⟨_, _, h⟩)
      · rw [h1, lexOrdJ_self] at h
        cases h
      · rw [h2, lexOrdJ_self] at h
        cases h
      · exact h

/-- The price-point comparator relation is transitive. -/
theorem pricePointLe_trans (a b c : NormalizedPricePoint)
    (h1 : pricePointLe a b = true) (h2 : pricePointLe b c = true) :
    pricePointLe a c = true := by
  rw [pricePointLe_iff] at h1 h2 ⊢
  rcases h1 with h1 | ⟨hc1, h1⟩ | ⟨hc1, hp1, h1⟩ <;>
    rcases h2 with h2 | ⟨hc2, h2⟩ | ⟨hc2, hp2, h2⟩
  · exact Or.inl (lexOrdJ_lt_trans _ _ _ h1 h2)
  · rw [← hc2]
    exact Or.inl h1
  · rw [← hc2]
    exact Or.inl h1
  · rw [hc1]
    exact Or.inl h2
  · exact Or.inr (Or.inl ⟨hc1.trans hc2, lexOrdJ_lt_trans _ _ _ h1 h2⟩)
  · refine Or.inr (Or.inl ⟨hc1.trans hc2, ?_⟩)
    rw [← hp2]
    exact h1
  · rw [hc1]
    exact Or.inl h2
  · refine Or.inr (Or.inl ⟨hc1.trans hc2, ?_⟩)
    rw [hp1]
    exact h2
  · exact Or.inr (Or.inr ⟨hc1.trans hc2, hp1.trans hp2, le_trans h1 h2⟩)

/-- The price-point comparator relation is total. -/
theorem pricePointLe_total (a b : NormalizedPricePoint) :
    (pricePointLe a b || pricePointLe b a) = true := by
  rw [Bool.or_eq_true, pricePointLe_iff, pricePointLe_iff]
  rcases hord : lexOrdJ a.currency b.currency with _ | _ | _
  · exact Or.inl (Or.inl rfl)
  · have hc : a.currency = b.currency := (lexOrdJ_eq_iff _ _).mp hord
    rcases hp : lexOrdJ (periodKeyJ a.period) (periodKeyJ b.period) with _ | _ | _
    · exact Or.inl (Or.inr (Or.inl ⟨hc, rfl⟩))
    · have hpp : a.period = b.period := periodKeyJ_inj _ _ ((lexOrdJ_eq_iff _ _).mp hp)
      rcases le_total a.amount b.amount with h | h
      · exact Or.inl (Or.inr (Or.inr ⟨hc, hpp, h⟩))
      · exact Or.inr (Or.inr (Or.inr ⟨hc.symm, hpp.symm, h⟩))
    · refine Or.inr (Or.inr (Or.inl ⟨hc.symm, ?_⟩))
      rw [lexOrdJ_swap, hp]
      rfl
  · refine Or.inr (Or.inl ?_)
    rw [lexOrdJ_swap, hord]
    rfl

/-- Rounding to cents after rounding to cents changes nothing at the cents
level. -/
theorem cents2_round2 (q : ℚ) : cents2 (round2 q) = cents2 q := by
  rw [round2, cents2, cents2, div_mul_cancel₀ _ (by norm_num : (100:ℚ) ≠ 0),
    Int.floor_int_add]
  norm_num

/-- `toFixed(2)`-style rounding is idempotent. -/
theorem round2_round2 (q : ℚ) : round2 (round2 q) = round2 q := by
  conv_lhs => rw [round2]
  rw [show ⌊round2 q * 100 + 1/2⌋ = cents2 (round2 q) from rfl, cents2_round2, cents2,
    round2]

/-- The stored form of a price mention is a fixed point of storing. -/
theorem storedPrice_idem (p : NormalizedPricePoint) :
    storedPrice (storedPrice p) = storedPrice p := by
  rw [storedPrice, storedPrice]
  simp [round2_round2, toUpperJ_idem]

/-- Storing a mention with uppercase-stable currency does not change its
`Map` key. -/
theorem priceKeyJ_storedPrice (p : NormalizedPricePoint)
    (h : toUpperJ p.currency = p.currency) :
    priceKeyJ (storedPrice p) = priceKeyJ p := by
  rw [priceKeyJ, priceKeyJ, storedPrice]
  simp only [h]
  rw [cents2_round2]

/-- The composite item normalization of `uniqueStrings` is idempotent. -/
theorem normLower_idem (s : JSStr) :
    toLowerJ (normalizeWhitespace (toLowerJ (normalizeWhitespace s))) =
      toLowerJ (normalizeWhitespace s) := by
  rw [normalizeWhitespace_toLowerJ, toLowerJ_idem, normalizeWhitespace_idem]

/-- `uniqueStrings` fixes a list that is already item-normalized,
duplicate-free, empty-free and sorted. -/
theorem uniqueStrings_fix (s : List JSStr)
    (hfix : ∀ x ∈ s, toLowerJ (normalizeWhitespace x) = x)
    (hpw : s.Pairwise (fun a b => a ≠ b))
    (hne : ∀ x ∈ s, x.isEmpty = false)
    (hsorted : s.Pairwise (fun a b => lexLeJ a b = true)) :
    uniqueStrings s = s := by
  rw [uniqueStrings]
  have hm : List.map (fun item => toLowerJ (normalizeWhitespace item)) s = List.map id s :=
    List.map_congr_left hfix
  rw [hm, List.map_id, dedupByKey_eq_self id [] s (by simp) hpw]
  have hf : List.filter (fun item => !item.isEmpty) s = s := by
    rw [List.filter_eq_self]
    intro a ha
    rw [hne a ha]
    rfl
  rw [hf]
  exact List.mergeSort_of_sorted hsorted

/-- `uniquePrices` fixes a list that is already stored-form, key-distinct
and sorted. -/
theorem uniquePrices_fix (s : List NormalizedPricePoint)
    (hfix : ∀ x ∈ s, storedPrice x = x)
    (hpw : s.Pairwise (fun a b => priceKeyJ a ≠ priceKeyJ b))
    (hsorted : s.Pairwise (fun a b => pricePointLe a b = true)) :
    uniquePrices s = s := by
  rw [uniquePrices, dedupByKey_eq_self priceKeyJ [] s (by simp) hpw]
  have hm : List.map storedPrice s = List.map id s := List.map_congr_left hfix
  rw [hm, List.map_id]
  exact List.mergeSort_of_sorted hsorted

/-- The output of `uniqueStrings` is sorted by the comparator. -/
theorem uniqueStrings_sorted (items : List JSStr) :
    (uniqueStrings items).Pairwise (fun a b => lexLeJ a b = true) := by
  rw [uniqueStrings]
  exact List.sorted_mergeSort lexLeJ_trans lexLeJ_total _

/-- The output of `uniqueStrings` is duplicate-free. -/
theorem uniqueStrings_nodup (items : List JSStr) :
    (uniqueStrings items).Pairwise (fun a b => a ≠ b) := by
  rw [uniqueStrings]
  refine ((List.mergeSort_perm _ _).pairwise_iff (fun h => Ne.symm h)).mpr ?_
  exact (dedupByKey_pairwise id [] _).filter _

/-- Every output item of `uniqueStrings` is item-normalized and non-empty. -/
theorem mem_uniqueStrings (items : List JSStr) (x : JSStr) (hx : x ∈ uniqueStrings items) :
    toLowerJ (normalizeWhitespace x) = x ∧ x.isEmpty = false := by
  rw [uniqueStrings, List.mem_mergeSort] at hx
  have hxne := List.of_mem_filter hx
  have hxd := List.mem_of_mem_filter hx
  have hxm := mem_dedupByKey _ _ _ _ hxd
  rw [List.mem_map] at hxm
  obtain ⟨y, _, rfl⟩ := hxm
  refine ⟨normLower_idem y, ?_⟩
  simpa using hxne

/-- `uniqueStrings` is idempotent. -/
theorem uniqueStrings_idem (items : List JSStr) :
    uniqueStrings (uniqueStrings items) = uniqueStrings items := by
  refine uniqueStrings_fix _ ?_ (uniqueStrings_nodup items) ?_ (uniqueStrings_sorted items)
  · exact fun x hx => (mem_uniqueStrings items x hx).1
  · exact fun x hx => (mem_uniqueStrings items x hx).2

/-- The output of `uniquePrices` is sorted by the comparator. -/
theorem uniquePrices_sorted (l : List NormalizedPricePoint) :
    (uniquePrices l).Pairwise (fun a b => pricePointLe a b = true) := by
  rw [uniquePrices]
  exact List.sorted_mergeSort pricePointLe_trans pricePointLe_total _

/-- Every output of `uniquePrices` is the stored form of some input. -/
theorem mem_uniquePrices (l : List NormalizedPricePoint) (x : NormalizedPricePoint)
    (hx : x ∈ uniquePrices l) : ∃ y ∈ l, x = storedPrice y := by
  rw [uniquePrices, List.mem_mergeSort, List.mem_map] at hx
  obtain ⟨y, hy, rfl⟩ := hx
  exact ⟨y, mem_dedupByKey _ _ _ _ hy, rfl⟩

/-- With uppercase-stable input currencies the output keys of `uniquePrices`
are pairwise distinct. -/
theorem uniquePrices_key_pairwise (l : List NormalizedPricePoint)
    (h : ∀ m ∈ l, toUpperJ m.currency = m.currency) :
    (uniquePrices l).Pairwise (fun a b => priceKeyJ a ≠ priceKeyJ b) := by
  rw [uniquePrices]
  refine ((List.mergeSort_perm _ _).pairwise_iff (fun hab => Ne.symm hab)).mpr ?_
  rw [List.pairwise_map]
  refine (dedupByKey_pairwise priceKeyJ [] l).imp_of_mem ?_
  intro a b ha hb hne
  rw [priceKeyJ_storedPrice a (h a (mem_dedupByKey _ _ _ _ ha)),
    priceKeyJ_storedPrice b (h b (mem_dedupByKey _ _ _ _ hb))]
  exact hne

/-- With uppercase-stable input currencies `uniquePrices` is idempotent. -/
theorem uniquePrices_idem (l : List NormalizedPricePoint)
    (h : ∀ m ∈ l, toUpperJ m.currency = m.currency) :
    uniquePrices (uniquePrices l) = uniquePrices l := by
  refine uniquePrices_fix _ ?_ (uniquePrices_key_pairwise l h) (uniquePrices_sorted l)
  intro x hx
  obtain ⟨y, _, rfl⟩ := mem_uniquePrices l x hx
  exact storedPrice_idem y

/-- C6 (amended): `canonicalizePricingPayload` is idempotent on every payload
whose price-mention currencies are unchanged by uppercasing and whose optional
page texts are absent, empty, or not whitespace-only.  (The unrestricted claim
fails: the dedup `Map` keys use the currency as written while the stored
mention uppercases it, and a whitespace-only title normalizes to the empty
string, which the second pass maps to `null`.) -/
theorem canonicalizePricingPayload_idem_on_stable (p : NormalizedPricingPayload)
    (hcur : currenciesUppercaseB p = true)
    (ht : textNormOkB p.pageTitle = true)
    (hd : textNormOkB p.pageDescription = true) :
    canonicalizePricingPayload (canonicalizePricingPayload p) =
      canonicalizePricingPayload p := by
  have hcur' : ∀ m ∈ p.priceMentions, toUpperJ m.currency = m.currency := by
    rw [currenciesUppercaseB, List.all_eq_true] at hcur
    intro m hm
    exact beq_iff_eq.mp (hcur m hm)
  simp only [canonicalizePricingPayload, NormalizedPricingPayload.mk.injEq]
  refine ⟨trivial, ?_, ?_, uniqueStrings_idem _, uniquePrices_idem _ hcur', uniqueStrings_idem _⟩
  · cases hout : p.pageTitle with
    | none => rfl
    | some t =>
      rw [hout] at ht
      rw [textNormOkB] at ht
      by_cases he : t.isEmpty = true
      · simp [he]
      · rw [Bool.not_eq_true] at he
        rw [he] at ht
        simp only [Bool.false_or, Bool.not_eq_true'] at ht
        simp [he, ht, normalizeWhitespace_idem]
  · cases hout : p.pageDescription with
    | none => rfl
    | some t =>
      rw [hout] at hd
      rw [textNormOkB] at hd
      by_cases he : t.isEmpty = true
      · simp [he]
      · rw [Bool.not_eq_true] at he
        rw [he] at hd
        simp only [Bool.false_or, Bool.not_eq_true'] at hd
        simp [he, hd, normalizeWhitespace_idem]

/-- C6 witness: the amended idempotence law applied at a concrete payload with
uppercase currencies and a whitespace-survivable title. -/
theorem canonicalizePricingPayload_idem_on_stable_witness :
    currenciesUppercaseB c6Good = true ∧ textNormOkB c6Good.pageTitle = true ∧
      textNormOkB c6Good.pageDescription = true ∧
      canonicalizePricingPayload (canonicalizePricingPayload c6Good) =
        canonicalizePricingPayload c6Good :=
  ⟨by decide,
    by simp [c6Good, textNormOkB, normalizeWhitespace, wordsJ, joinWordsJ, isJsSpaceCp],
    by decide,
    canonicalizePricingPayload_idem_on_stable c6Good (by decide)
      (by simp [c6Good, textNormOkB, normalizeWhitespace, wordsJ, joinWordsJ, isJsSpaceCp])
      (by decide)⟩

/-- C6 counterexample: canonicalization is not idempotent.  `c6Bad` carries the
same mention once with lowercase and once with uppercase currency; the first
pass keeps both (their `Map` keys differ in the original-case currency) yet
stores both with currency `USD`, so the second pass collapses them. -/
theorem canonicalizePricingPayload_not_idempotent :
    canonicalizePricingPayload (canonicalizePricingPayload c6Bad) ≠
      canonicalizePricingPayload c6Bad := by
  have hk : priceKeyJ
        { amount := (10:ℚ), currency := [85, 83, 68], period := PricePeriod.month } ≠
      priceKeyJ
        { amount := (10:ℚ), currency := [117, 115, 100], period := PricePeriod.month } := by
    rw [priceKeyJ, priceKeyJ]
    simp
  have hr : round2 (10:ℚ) = 10 := by norm_num [round2]
  have hss : pricePointLe
      { amount := (10:ℚ), currency := [85, 83, 68], period := PricePeriod.month }
      { amount := (10:ℚ), currency := [85, 83, 68], period := PricePeriod.month } = true := by
    simp [pricePointLe]
  have hu1 : uniquePrices
      [{ amount := (10:ℚ), currency := [117, 115, 100], period := PricePeriod.month },
       { amount := (10:ℚ), currency := [85, 83, 68], period := PricePeriod.month }] =
      [{ amount := (10:ℚ), currency := [85, 83, 68], period := PricePeriod.month },
       { amount := (10:ℚ), currency := [85, 83, 68], period := PricePeriod.month }] := by
    rw [uniquePrices]
    have hd : dedupByKey priceKeyJ []
        [{ amount := (10:ℚ), currency := [117, 115, 100], period := PricePeriod.month },
         { amount := (10:ℚ), currency := [85, 83, 68], period := PricePeriod.month }] =
        [{ amount := (10:ℚ), currency := [117, 115, 100], period := PricePeriod.month },
         { amount := (10:ℚ), currency := [85, 83, 68], period := PricePeriod.month }] := by
      simp [dedupByKey, hk]
    rw [hd]
    have hm : List.map storedPrice
        [{ amount := (10:ℚ), currency := [117, 115, 100], period := PricePeriod.month },
         { amount := (10:ℚ), currency := [85, 83, 68], period := PricePeriod.month }] =
        [{ amount := (10:ℚ), currency := [85, 83, 68], period := PricePeriod.month },
         { amount := (10:ℚ), currency := [85, 83, 68], period := PricePeriod.month }] := by
      simp [storedPrice, toUpperJ, upperCp, hr]
    rw [hm]
    exact List.mergeSort_of_sorted (by simp [List.pairwise_cons, hss])
  have hu2 : uniquePrices
      [{ amount := (10:ℚ), currency := [85, 83, 68], period := PricePeriod.month },
       { amount := (10:ℚ), currency := [85, 83, 68], period := PricePeriod.month }] =
      [{ amount := (10:ℚ), currency := [85, 83, 68], period := PricePeriod.month }] := by
    rw [uniquePrices]
    have hd2 : dedupByKey priceKeyJ []
        [{ amount := (10:ℚ), currency := [85, 83, 68], period := PricePeriod.month },
         { amount := (10:ℚ), currency := [85, 83, 68], period := PricePeriod.month }] =
        [{ amount := (10:ℚ), currency := [85, 83, 68], period := PricePeriod.month }] := by
      simp [dedupByKey]
    rw [hd2]
    have hm2 : List.map storedPrice
        [{ amount := (10:ℚ), currency := [85, 83, 68], period := PricePeriod.month }] =
        [{ amount := (10:ℚ), currency := [85, 83, 68], period := PricePeriod.month }] := by
      simp [storedPrice, toUpperJ, upperCp, hr]
    rw [hm2]
    exact mergeSort_single _ _
  intro hcontra
  have h2 := congrArg NormalizedPricingPayload.priceMentions hcontra
  have hc1 : (canonicalizePricingPayload c6Bad).priceMentions =
      [{ amount := (10:ℚ), currency := [85, 83, 68], period := PricePeriod.month },
       { amount := (10:ℚ), currency := [85, 83, 68], period := PricePeriod.month }] := by
    rw [canonicalizePricingPayload]
    exact hu1
  have hcL : (canonicalizePricingPayload (canonicalizePricingPayload c6Bad)).priceMentions =
      [{ amount := (10:ℚ), currency := [85, 83, 68], period := PricePeriod.month }] := by
    rw [canonicalizePricingPayload]
    show uniquePrices (canonicalizePricingPayload c6Bad).priceMentions = _
    rw [hc1]
    exact hu2
  rw [hcL, hc1] at h2
  simp at h2

/-- The remainder after dropping a run of slashes is empty or starts with a
non-slash. -/
theorem dropWhile47_head (l : JSStr) :
    l.dropWhile (fun d => d == 47) = [] ∨
      ∃ d t, l.dropWhile (fun d => d == 47) = d :: t ∧ (d == 47) = false := by
  have h := List.head?_dropWhile_not (fun d => d == 47) l
  rcases hcons : l.dropWhile (fun d => d == 47) with _ | ⟨d, t⟩
  · exact Or.inl rfl
  · rw [hcons] at h
    exact Or.inr ⟨d, t, rfl, h⟩

/-- Slash collapsing introduces no new code points. -/
theorem mem_collapseSlashes (s : JSStr) (c : Nat) : c ∈ collapseSlashes s → c ∈ s := by
  induction s using collapseSlashes.induct with
  | case1 =>
    intro hc
    simp [collapseSlashes] at hc
  | case2 d cs hcond ih =>
    intro hc
    rw [collapseSlashes, if_pos hcond] at hc
    rcases List.mem_cons.mp hc with h1 | h1
    · have hd : d = 47 := by simpa using hcond
      subst h1
      rw [hd]
      exact List.mem_cons_self _ _
    · exact List.mem_cons_of_mem _ ((List.dropWhile_sublist _).subset (ih h1))
  | case3 d cs hcond ih =>
    intro hc
    rw [collapseSlashes, if_neg hcond] at hc
    rcases List.mem_cons.mp hc with h1 | h1
    · subst h1
      exact List.mem_cons_self _ _
    · exact List.mem_cons_of_mem _ (ih h1)

/-- The collapse of a slash-stripped list never starts with a slash. -/
theorem dropWhile47_collapseSlashes (cs : JSStr) :
    (collapseSlashes (cs.dropWhile (fun d => d == 47))).dropWhile (fun d => d == 47) =
      collapseSlashes (cs.dropWhile (fun d => d == 47)) := by
  rcases dropWhile47_head cs with h0 | ⟨e, t, het, hef⟩
  · rw [h0, collapseSlashes]
    rfl
  · rw [het, collapseSlashes, if_neg (by simp [hef]), List.dropWhile_cons,
      if_neg (by simp [hef])]

/-- Slash collapsing is idempotent. -/
theorem collapseSlashes_idem (s : JSStr) :
    collapseSlashes (collapseSlashes s) = collapseSlashes s := by
  induction s using collapseSlashes.induct with
  | case1 =>
    rw [collapseSlashes, collapseSlashes]
  | case2 d cs hcond ih =>
    rw [collapseSlashes, if_pos hcond]
    rw [collapseSlashes, if_pos (by decide)]
    rw [dropWhile47_collapseSlashes, ih]
  | case3 d cs hcond ih =>
    rw [collapseSlashes, if_neg hcond]
    rw [collapseSlashes, if_neg hcond]
    rw [ih]

/-- Unfolding slash collapsing at a leading slash. -/
theorem collapseSlashes_cons47 (t : JSStr) :
    collapseSlashes (47 :: t) =
      47 :: collapseSlashes (t.dropWhile (fun d => d == 47)) := by
  rw [collapseSlashes, if_pos (by decide)]

/-- Path normalization of a rooted path keeps the root slash. -/
theorem normalizeUrlPath_head47 (t : JSStr) :
    normalizeUrlPath (47 :: t) =
      47 :: collapseSlashes (t.dropWhile (fun d => d == 47)) := by
  simp only [normalizeUrlPath, collapseSlashes_cons47]
  rfl

/-- Path normalization is idempotent on rooted paths. -/
theorem normalizeUrlPath_idem_head47 (t : JSStr) :
    normalizeUrlPath (normalizeUrlPath (47 :: t)) = normalizeUrlPath (47 :: t) := by
  rw [normalizeUrlPath_head47]
  have h : collapseSlashes (47 :: collapseSlashes (t.dropWhile (fun d => d == 47))) =
      47 :: collapseSlashes (t.dropWhile (fun d => d == 47)) := by
    rw [collapseSlashes_cons47, dropWhile47_collapseSlashes, collapseSlashes_idem]
  simp only [normalizeUrlPath, h]
  rfl

/-- Host code points are not authority delimiters. -/
theorem isHostRawCp_not_delim (c : Nat) (h : isHostRawCp c = true) :
    (!(c == 47 || c == 63 || c == 35)) = true := by
  rw [isHostRawCp, isAlphaCp, isDigitCp] at h
  simp only [Bool.or_eq_true, Bool.and_eq_true, beq_iff_eq, decide_eq_true_eq] at h
  simp only [Bool.not_eq_true', Bool.or_eq_false_iff, beq_eq_false_iff_ne, ne_eq]
  omega

/-- Path code points are neither `?` nor `#`. -/
theorem isPathCp_not_qf (c : Nat) (h : isPathCp c = true) :
    (!(c == 63 || c == 35)) = true := by
  rw [isPathCp, isAlphaCp, isDigitCp] at h
  simp only [Bool.or_eq_true, Bool.and_eq_true, beq_iff_eq, decide_eq_true_eq] at h
  simp only [Bool.not_eq_true', Bool.or_eq_false_iff, beq_eq_false_iff_ne, ne_eq]
  omega

/-- Lowercasing keeps host code points valid. -/
theorem isHostRawCp_lowerCp (c : Nat) (h : isHostRawCp c = true) :
    isHostRawCp (lowerCp c) = true := by
  rw [isHostRawCp, isAlphaCp, isDigitCp] at h ⊢
  rw [lowerCp]
  simp only [Bool.or_eq_true, Bool.and_eq_true, beq_iff_eq, decide_eq_true_eq] at h ⊢
  split_ifs with hc
  · omega
  · omega

/-- A prefix occurrence is a substring occurrence. -/
theorem hasSubJ_of_prefix (needle l : JSStr) (h : needle.isPrefixOf l = true) :
    hasSubJ needle l = true := by
  cases l with
  | nil =>
    rw [hasSubJ]
    cases needle with
    | nil => rfl
    | cons c cs => simp [List.isPrefixOf] at h
  | cons c cs =>
    rw [hasSubJ, h, Bool.true_or]

/-- A substring occurrence survives prepending. -/
theorem hasSubJ_append_right (needle pre post : JSStr) (h : hasSubJ needle post = true) :
    hasSubJ needle (pre ++ post) = true := by
  induction pre with
  | nil => simpa using h
  | cons c cs ih =>
    rw [List.cons_append, hasSubJ, ih, Bool.or_true]

/-- Dropping the matched prefix length is dropping while the predicate holds. -/
theorem drop_length_takeWhile {α : Type} (p : α → Bool) (l : List α) :
    l.drop (l.takeWhile p).length = l.dropWhile p := by
  induction l with
  | nil => rfl
  | cons a l ih =>
    rw [List.takeWhile_cons, List.dropWhile_cons]
    by_cases hp : p a = true
    · rw [if_pos hp, if_pos hp, List.length_cons, List.drop_succ_cons]
      exact ih
    · rw [if_neg hp, if_neg hp]
      rfl

/-- Serialization of a query-free, fragment-free URL record. -/
theorem urlToStringJ_plain (S H P : JSStr) :
    urlToStringJ { scheme := S, host := H, path := P, query := [], frag := [] } =
      S ++ 58 :: 47 :: 47 :: (H ++ P) := by
  simp [urlToStringJ, List.append_assoc]

/-- The candidate path segment of the parser is empty or starts with `/`. -/
theorem path0_head (r : JSStr) :
    ((r.drop (r.takeWhile (fun c => !(c == 47 || c == 63 || c == 35))).length).takeWhile
        (fun c => !(c == 63 || c == 35))).isEmpty = true ∨
      ((r.drop (r.takeWhile (fun c => !(c == 47 || c == 63 || c == 35))).length).takeWhile
        (fun c => !(c == 63 || c == 35))).head? = some 47 := by
  rw [drop_length_takeWhile]
  rcases hd : r.dropWhile (fun c => !(c == 47 || c == 63 || c == 35)) with _ | ⟨d, r2⟩
  · exact Or.inl rfl
  · have hdp := List.head?_dropWhile_not (fun c => !(c == 47 || c == 63 || c == 35)) r
    rw [hd] at hdp
    rw [List.takeWhile_cons]
    by_cases h2 : (!(d == 63 || d == 35)) = true
    · rw [if_pos h2]
      refine Or.inr ?_
      rw [List.head?_cons, Option.some.injEq]
      have hdp2 : (!(d == 47 || d == 63 || d == 35)) = false := hdp
      simp only [Bool.not_eq_false', Bool.not_eq_true', Bool.or_eq_true, Bool.or_eq_false_iff,
        beq_iff_eq, beq_eq_false_iff_ne, ne_eq] at hdp2 h2
      omega
    · rw [if_neg h2]
      exact Or.inl rfl

/-- Every successfully parsed URL has a lowercase non-empty well-formed host,
a rooted well-formed path, and a lowercase scheme. -/
theorem parseUrl_shape (s : JSStr) (u : UrlModel) (h : parseUrl s = some u) :
    toLowerJ u.host = u.host ∧ u.host ≠ [] ∧ (∀ c ∈ u.host, isHostRawCp c = true) ∧
      u.path.head? = some 47 ∧ (∀ c ∈ u.path, isPathCp c = true) ∧
      toLowerJ u.scheme = u.scheme := by
  simp only [parseUrl] at h
  split at h
  · cases h
  split at h
  · cases h
  split at h
  · cases h
  split at h
  · cases h
  split at h
  · cases h
  rename_i h1 h2 h3 h4 h5
  rw [Option.some.injEq] at h
  subst h
  simp only [Bool.not_eq_true] at h3
  simp only [Bool.not_eq_true', Bool.not_eq_false] at h4 h5
  rw [List.all_eq_true] at h4 h5
  refine ⟨toLowerJ_idem _, ?_, ?_, ?_, ?_, toLowerJ_idem _⟩
  · simp only [toLowerJ, ne_eq, List.map_eq_nil_iff]
    intro hnil
    rw [hnil] at h3
    cases h3
  · intro c hc
    simp only [toLowerJ, List.mem_map] at hc
    obtain ⟨a, ha, rfl⟩ := hc
    exact isHostRawCp_lowerCp a (h4 a ha)
  · rcases path0_head ((s.drop (s.takeWhile (fun c => !(c == 58))).length).drop 3) with
      hpe | hph
    · rw [if_pos hpe]
      rfl
    · have hpe2 : ((((s.drop (s.takeWhile (fun c => !(c == 58))).length).drop 3).drop
          (((s.drop (s.takeWhile (fun c => !(c == 58))).length).drop 3).takeWhile
            (fun c => !(c == 47 || c == 63 || c == 35))).length).takeWhile
          (fun c => !(c == 63 || c == 35))).isEmpty = false := by
        rcases hcons : (((s.drop (s.takeWhile (fun c => !(c == 58))).length).drop 3).drop
            (((s.drop (s.takeWhile (fun c => !(c == 58))).length).drop 3).takeWhile
              (fun c => !(c == 47 || c == 63 || c == 35))).length).takeWhile
            (fun c => !(c == 63 || c == 35)) with _ | ⟨d, r2⟩
        · rw [hcons] at hph
          cases hph
        · rfl
      rw [if_neg (by rw [hpe2]; exact Bool.false_ne_true)]
      exact hph
  · rcases path0_head ((s.drop (s.takeWhile (fun c => !(c == 58))).length).drop 3) with
      hpe | hph
    · rw [if_pos hpe]
      intro c hc
      rw [List.mem_singleton] at hc
      subst hc
      decide
    · have hpe2 : ((((s.drop (s.takeWhile (fun c => !(c == 58))).length).drop 3).drop
          (((s.drop (s.takeWhile (fun c => !(c == 58))).length).drop 3).takeWhile
            (fun c => !(c == 47 || c == 63 || c == 35))).length).takeWhile
          (fun c => !(c == 63 || c == 35))).isEmpty = false := by
        rcases hcons : (((s.drop (s.takeWhile (fun c => !(c == 58))).length).drop 3).drop
            (((s.drop (s.takeWhile (fun c => !(c == 58))).length).drop 3).takeWhile
              (fun c => !(c == 47 || c == 63 || c == 35))).length).takeWhile
            (fun c => !(c == 63 || c == 35)) with _ | ⟨d, r2⟩
        · rw [hcons] at hph
          cases hph
        · rfl
      rw [if_neg (by rw [hpe2]; exact Bool.false_ne_true)]
      exact h5

/-- Parsing a serialized plain URL recovers its components. -/
theorem parseUrl_concrete (S H t : JSStr)
    (hS : validSchemeJ S = true) (hS58 : ∀ c ∈ S, (!(c == 58)) = true)
    (hHne : H ≠ []) (hHraw : ∀ c ∈ H, isHostRawCp c = true)
    (hPcp : ∀ c ∈ 47 :: t, isPathCp c = true) :
    parseUrl (S ++ 58 :: 47 :: 47 :: (H ++ 47 :: t)) =
      some { scheme := toLowerJ S, host := toLowerJ H, path := 47 :: t,
             query := [], frag := [] } := by
  have h1 : (S ++ 58 :: 47 :: 47 :: (H ++ 47 :: t)).takeWhile (fun c => !(c == 58)) = S := by
    rw [takeWhile_append_of_all _ _ _ hS58, List.takeWhile_cons]
    simp
  have h2 : (H ++ 47 :: t).takeWhile (fun c => !(c == 47 || c == 63 || c == 35)) = H := by
    rw [takeWhile_append_of_all _ _ _ (fun c hc => isHostRawCp_not_delim c (hHraw c hc)),
      List.takeWhile_cons]
    simp
  have h3 : (47 :: t).takeWhile (fun c => !(c == 63 || c == 35)) = 47 :: t := by
    have h4 := takeWhile_append_of_all (fun c => !(c == 63 || c == 35)) (47 :: t) []
      (fun c hc => isPathCp_not_qf c (hPcp c hc))
    simpa using h4
  have hHe : H.isEmpty = false := by
    cases H with
    | nil => exact absurd rfl hHne
    | cons a l => rfl
  have hall : H.all isHostRawCp = true := List.all_eq_true.mpr hHraw
  have hallP : (47 :: t).all isPathCp = true := List.all_eq_true.mpr hPcp
  simp only [parseUrl, h1, List.drop_left]
  rw [hS]
  rw [if_neg (by decide)]
  rw [if_neg (by simp)]
  rw [show (58 :: 47 :: 47 :: (H ++ 47 :: t)).drop 3 = H ++ 47 :: t from rfl]
  rw [h2, List.drop_left, hHe]
  rw [if_neg (by decide)]
  rw [hall]
  rw [if_neg (by decide)]
  rw [h3, hallP]
  rw [if_neg (by decide)]
  rw [List.drop_length]
  rfl

/-- Lowercasing commutes with dropping a prefix. -/
theorem toLowerJ_drop (l : JSStr) (n : Nat) : toLowerJ (l.drop n) = (toLowerJ l).drop n :=
  List.map_drop lowerCp l n

/-- The one-shot `www.` strip introduces no new code points. -/
theorem stripWwwOnce_sub (h : JSStr) (c : Nat) (hc : c ∈ stripWwwOnce h) : c ∈ h := by
  rw [stripWwwOnce] at hc
  split_ifs at hc
  · exact List.drop_subset _ _ hc
  · exact hc

/-- The one-shot `www.` strip preserves lowercase stability. -/
theorem toLowerJ_stripWwwOnce (h : JSStr) (hl : toLowerJ h = h) :
    toLowerJ (stripWwwOnce h) = stripWwwOnce h := by
  rw [stripWwwOnce]
  split_ifs
  · rw [toLowerJ_drop, hl]
  · exact hl

/-- Unfolding the `www.`-stability predicate at a parsed URL. -/
theorem hostWwwStableB_eval (y : JSStr) (u : UrlModel) (hp : parseUrl y = some u)
    (hs : hostWwwStableB y = true) : stripWwwOnce u.host = u.host := by
  rw [hostWwwStableB, hp] at hs
  have hs2 : (stripWwwOnce u.host == u.host) = true := hs
  exact beq_iff_eq.mp hs2

/-- Unfolding `normalizeUrl` on a successfully parsed http(s) input. -/
theorem normalizeUrl_eval (x : JSStr) (S Ho P Q F : JSStr)
    (h1 : parseUrl (if hasSubJ (jstr "://") x then x else jstr "https://" ++ x) =
      some { scheme := S, host := Ho, path := P, query := Q, frag := F })
    (h2 : ¬(S ≠ jstr "http" ∧ S ≠ jstr "https")) :
    normalizeUrl x = some (urlToStringJ
      { scheme := S
        host := if (normalizeHostname Ho).isEmpty then Ho else normalizeHostname Ho
        path := normalizeUrlPath P
        query := []
        frag := [] }) := by
  simp only [normalizeUrl, h1]
  rw [if_neg h2]
  simp only [setHostname]
  by_cases he : (normalizeHostname Ho).isEmpty = true
  · rw [if_pos he, if_pos he]
  · rw [if_neg he, if_neg he]

/-- Path normalization fixes the root path. -/
theorem normalizeUrlPath_root : normalizeUrlPath ([47] : JSStr) = [47] := by
  rw [normalizeUrlPath_head47]
  simp [collapseSlashes]

/-- C7 (amended): `normalizeUrl` is idempotent on its non-null outputs whose
host the one-shot `www.`-strip leaves unchanged: whenever
`normalizeUrl x = some y` and the parsed host of `y` does not start a second
`www.`, renormalizing `y` returns `y` itself.  (The unrestricted claim fails
because `replace(/^www\./, "")` removes only one leading `www.` per pass.) -/
theorem normalizeUrl_idem_on_stable (x y : JSStr) (h : normalizeUrl x = some y)
    (hstable : hostWwwStableB y = true) : normalizeUrl y = some y := by
  rcases hp : parseUrl (if hasSubJ (jstr "://") x then x else jstr "https://" ++ x)
    with _ | u
  · simp only [normalizeUrl, hp] at h
    exact Option.noConfusion h
  by_cases hcond : u.scheme ≠ jstr "http" ∧ u.scheme ≠ jstr "https"
  · simp only [normalizeUrl, hp] at h
    rw [if_pos hcond] at h
    exact Option.noConfusion h
  obtain ⟨hhl, hhne, hhraw, hph, hpcp, hsl⟩ := parseUrl_shape _ u hp
  have hS : u.scheme = jstr "http" ∨ u.scheme = jstr "https" := by
    by_cases h1 : u.scheme = jstr "http"
    · exact Or.inl h1
    · by_cases h2 : u.scheme = jstr "https"
      · exact Or.inr h2
      · exact absurd ⟨h1, h2⟩ hcond
  have heval := normalizeUrl_eval x u.scheme u.host u.path u.query u.frag (by exact hp)
    hcond
  rw [heval, Option.some.injEq] at h
  obtain ⟨t0, hup⟩ : ∃ t0, u.path = 47 :: t0 := by
    rcases hupc : u.path with _ | ⟨p0, t0⟩
    · rw [hupc] at hph
      cases hph
    · rw [hupc] at hph
      rw [List.head?_cons, Option.some.injEq] at hph
      exact ⟨t0, by rw [hph]⟩
  rw [hup, normalizeUrlPath_head47] at h
  set C0 := collapseSlashes (t0.dropWhile (fun d => d == 47)) with hC0
  set H3 := if (normalizeHostname u.host).isEmpty then u.host else normalizeHostname u.host
    with hH3
  have hfacts : (∀ c ∈ H3, isHostRawCp c = true) ∧ H3 ≠ [] ∧ toLowerJ H3 = H3 := by
    rw [hH3]
    have hnh : normalizeHostname u.host = stripWwwOnce u.host := by
      rw [normalizeHostname, hhl]
    split_ifs with hhe
    · exact ⟨hhraw, hhne, hhl⟩
    · refine ⟨?_, ?_, ?_⟩
      · intro c hc
        rw [hnh] at hc
        exact hhraw c (stripWwwOnce_sub _ c hc)
      · intro hnil
        rw [hnil] at hhe
        exact hhe rfl
      · rw [hnh]
        exact toLowerJ_stripWwwOnce _ hhl
  obtain ⟨hH3raw, hH3ne, hH3l⟩ := hfacts
  have hPall : ∀ c ∈ 47 :: C0, isPathCp c = true := by
    intro c hc
    rcases List.mem_cons.mp hc with h1 | h1
    · subst h1
      decide
    · rw [hC0] at h1
      have h2 := (List.dropWhile_sublist _).subset (mem_collapseSlashes _ _ h1)
      exact hpcp c (by rw [hup]; exact List.mem_cons_of_mem _ h2)
  have hSv : validSchemeJ u.scheme = true := by
    rcases hS with h1 | h1 <;> rw [h1] <;> decide
  have hS58 : ∀ c ∈ u.scheme, (!(c == 58)) = true := by
    rcases hS with h1 | h1 <;> rw [h1] <;> decide
  have hy : y = u.scheme ++ 58 :: 47 :: 47 :: (H3 ++ 47 :: C0) := by
    rw [← h, urlToStringJ_plain]
  have hpy : parseUrl y = some (UrlModel.mk u.scheme H3 (47 :: C0) [] []) := by
    rw [hy, parseUrl_concrete _ _ _ hSv hS58 hH3ne hH3raw hPall, hsl, hH3l]
  have hsub : hasSubJ (jstr "://") y = true := by
    rw [hy]
    apply hasSubJ_append_right
    apply hasSubJ_of_prefix
    have hj : jstr "://" = [58, 47, 47] := by decide
    rw [hj, List.isPrefixOf_iff_prefix]
    exact ⟨H3 ++ 47 :: C0, rfl⟩
  have hst : stripWwwOnce H3 = H3 := hostWwwStableB_eval y _ hpy hstable
  have hnh2 : normalizeHostname H3 = H3 := by
    rw [normalizeHostname, hH3l, hst]
  have heval2 := normalizeUrl_eval y u.scheme H3 (47 :: C0) [] []
    (by rw [if_pos hsub]; exact hpy) hcond
  rw [heval2, Option.some.injEq, hnh2, ite_self]
  rw [hC0, ← normalizeUrlPath_head47, normalizeUrlPath_idem_head47, normalizeUrlPath_head47,
    ← hC0]
  rw [h]

/-- C7 witness: the amended law at `"example.com"`, whose normalization
`"https://example.com/"` is `www.`-stable and renormalizes to itself. -/
theorem normalizeUrl_idem_on_stable_witness :
    normalizeUrl [101, 120, 97, 109, 112, 108, 101, 46, 99, 111, 109] =
        some [104, 116, 116, 112, 115, 58, 47, 47, 101, 120, 97, 109, 112, 108, 101,
          46, 99, 111, 109, 47] ∧
      hostWwwStableB [104, 116, 116, 112, 115, 58, 47, 47, 101, 120, 97, 109, 112, 108,
        101, 46, 99, 111, 109, 47] = true ∧
      normalizeUrl [104, 116, 116, 112, 115, 58, 47, 47, 101, 120, 97, 109, 112, 108,
          101, 46, 99, 111, 109, 47] =
        some [104, 116, 116, 112, 115, 58, 47, 47, 101, 120, 97, 109, 112, 108, 101,
          46, 99, 111, 109, 47] :=
  ⟨by
    have heval := normalizeUrl_eval [101, 120, 97, 109, 112, 108, 101, 46, 99, 111, 109]
      [104, 116, 116, 112, 115] [101, 120, 97, 109, 112, 108, 101, 46, 99, 111, 109]
      [47] [] [] (by decide) (by decide)
    rw [heval, normalizeUrlPath_root]
    decide,
   by decide,
   normalizeUrl_idem_on_stable _ _
    (by
      have heval := normalizeUrl_eval [101, 120, 97, 109, 112, 108, 101, 46, 99, 111,
        109]
        [104, 116, 116, 112, 115] [101, 120, 97, 109, 112, 108, 101, 46, 99, 111, 109]
        [47] [] [] (by decide) (by decide)
      rw [heval, normalizeUrlPath_root]
      decide)
    (by decide)⟩

/-- C7 counterexample: `normalizeUrl` is not idempotent on every non-null
input.  Normalizing `"www.www.example.com"` yields
`"https://www.example.com/"` (one `www.` stripped), and renormalizing that
output strips a second `www.`, so it does not return the output unchanged. -/
theorem normalizeUrl_not_idempotent :
    ∃ x y : JSStr, normalizeUrl x = some y ∧ normalizeUrl y ≠ some y := by
  refine ⟨[119, 119, 119, 46, 119, 119, 119, 46, 101, 120, 97, 109, 112, 108, 101, 46,
    99, 111, 109],
    [104, 116, 116, 112, 115, 58, 47, 47, 119, 119, 119, 46, 101, 120, 97, 109, 112,
      108, 101, 46, 99, 111, 109, 47], ?_, ?_⟩
  · have heval := normalizeUrl_eval
      [119, 119, 119, 46, 119, 119, 119, 46, 101, 120, 97, 109, 112, 108, 101, 46, 99,
        111, 109]
      [104, 116, 116, 112, 115]
      [119, 119, 119, 46, 119, 119, 119, 46, 101, 120, 97, 109, 112, 108, 101, 46, 99,
        111, 109]
      [47] [] [] (by decide) (by decide)
    rw [heval, normalizeUrlPath_root]
    decide
  · have heval2 := normalizeUrl_eval
      [104, 116, 116, 112, 115, 58, 47, 47, 119, 119, 119, 46, 101, 120, 97, 109, 112,
        108, 101, 46, 99, 111, 109, 47]
      [104, 116, 116, 112, 115]
      [119, 119, 119, 46, 101, 120, 97, 109, 112, 108, 101, 46, 99, 111, 109]
      [47] [] [] (by decide) (by decide)
    rw [heval2, normalizeUrlPath_root]
    decide
